import Mathlib

/-!
A verification development for the sashay OpenAPI-document generator.

The Go source is shallowly embedded: reflective type information becomes the
inductive `GoType`, the `Field` descriptor struct becomes a Lean structure,
and the YAML builders become functions producing `Except String (List String)`
(a list of emitted lines, or the message of the Go `panic` that aborted the
build).  Go values are represented by their types: every value the generator
ever introspects is a zero value (or a user-supplied sample whose contents the
generator never reads), so only the dynamic type and interface-nil-ness of a
value are observable.  Recursion that Go bounds only by the call stack
(the schema renderer and the component visitor) takes an explicit fuel
argument; the top-level document build passes a fuel large enough for every
acyclic type graph, and running out of fuel yields a distinguished error that
no theorem below identifies with normal output.

Maps (`map[reflect.Type]...`, `map[string]string`) are modelled as
association lists with replace-on-insert, and Go's `sort.Slice`/`sort.Sort`
(an unspecified-order comparison sort) as insertion sort using the source's
comparator; theorems that depend on the order of incomparable elements take
distinct-key hypotheses, mirroring that Go fixes no order for ties.
-/

set_option maxRecDepth 200000
set_option maxHeartbeats 2000000

namespace SashayModel

instance {ε α : Type} [DecidableEq ε] [DecidableEq α] : DecidableEq (Except ε α) :=
  fun a b =>
    match a, b with
    | .ok x, .ok y => decidable_of_iff (x = y) (by simp)
    | .error e, .error e' => decidable_of_iff (e = e') (by simp)
    | .ok _, .error _ => isFalse (by simp)
    | .error _, .ok _ => isFalse (by simp)

/-- The subset of `reflect.Kind` the generator can meet.  `Kind.String()`
names are reproduced by `GoKind.str`. -/
inductive GoKind where
  | invalid | bool | int | int32 | int64 | float32 | float64 | string_
  | strukt | slice | map_ | ptr | iface
  deriving DecidableEq, Repr

/-- `reflect.Kind.String()` for the kinds above. -/
def GoKind.str : GoKind → String
  | .invalid => "invalid"
  | .bool => "bool"
  | .int => "int"
  | .int32 => "int32"
  | .int64 => "int64"
  | .float32 => "float32"
  | .float64 => "float64"
  | .string_ => "string"
  | .strukt => "struct"
  | .slice => "slice"
  | .map_ => "map"
  | .ptr => "ptr"
  | .iface => "interface"

/-- One key/value pair of a struct tag (`json:"id"` is `⟨"json", "id"⟩`).
`reflect.StructTag.Get` is lookup with default `""`. -/
structure GoTag where
  key : String
  val : String
  deriving DecidableEq, Repr

/-- The declaration of one struct field: name, embedded-ness, tag pairs and
the field's type `τ` (instantiated with `GoType`). -/
structure GoFieldDecl (τ : Type) where
  fname : String
  anon : Bool
  tags : List GoTag
  fty : τ
  deriving DecidableEq, Repr

/-- A Go type as `reflect` presents it: `name`/`pkgPath` are
`Type.Name()`/`Type.PkgPath()` (both `""` for unnamed types, and `pkgPath`
also `""` for predeclared types such as `int`).  `prim` covers every kind
with no type structure the generator reads (scalars, `map`, `interface`);
pointer types are kept unnamed, which is the only form the source
constructs.  Cyclic Go type graphs have no finite tree here; the generator
does not terminate on them either. -/
inductive GoType where
  | prim (name pkgPath : String) (kind : GoKind)
  | strukt (name pkgPath : String) (fields : List (GoFieldDecl GoType))
  | slice (name pkgPath : String) (elem : GoType)
  | ptr (elem : GoType)

/-- Structural equality of Go types, standing in for `reflect.Type` identity. -/
def GoType.beq : GoType → GoType → Bool
  | .prim n p k, .prim n' p' k' => n == n' && p == p' && k == k'
  | .strukt n p fs, .strukt n' p' fs' => n == n' && p == p' && go fs fs'
  | .slice n p e, .slice n' p' e' => n == n' && p == p' && e.beq e'
  | .ptr e, .ptr e' => e.beq e'
  | _, _ => false
where go : List (GoFieldDecl GoType) → List (GoFieldDecl GoType) → Bool
  | [], [] => true
  | f :: fs, f' :: fs' =>
      f.fname == f'.fname && f.anon == f'.anon && f.tags == f'.tags &&
        f.fty.beq f'.fty && go fs fs'
  | _, _ => false

mutual
theorem GoType.beq_iff : ∀ (a b : GoType), (a.beq b = true) ↔ a = b
  | .prim _ _ _, .prim _ _ _ => by simp [GoType.beq, and_assoc]
  | .strukt _ _ fs, .strukt _ _ fs' => by
      simp [GoType.beq, GoType.beq_go_iff fs fs', and_assoc]
  | .slice _ _ e, .slice _ _ e' => by
      simp [GoType.beq, GoType.beq_iff e e', and_assoc]
  | .ptr e, .ptr e' => by simp [GoType.beq, GoType.beq_iff e e']
  | .prim _ _ _, .strukt _ _ _ => by simp [GoType.beq]
  | .prim _ _ _, .slice _ _ _ => by simp [GoType.beq]
  | .prim _ _ _, .ptr _ => by simp [GoType.beq]
  | .strukt _ _ _, .prim _ _ _ => by simp [GoType.beq]
  | .strukt _ _ _, .slice _ _ _ => by simp [GoType.beq]
  | .strukt _ _ _, .ptr _ => by simp [GoType.beq]
  | .slice _ _ _, .prim _ _ _ => by simp [GoType.beq]
  | .slice _ _ _, .strukt _ _ _ => by simp [GoType.beq]
  | .slice _ _ _, .ptr _ => by simp [GoType.beq]
  | .ptr _, .prim _ _ _ => by simp [GoType.beq]
  | .ptr _, .strukt _ _ _ => by simp [GoType.beq]
  | .ptr _, .slice _ _ _ => by simp [GoType.beq]

theorem GoType.beq_go_iff :
    ∀ (fs fs' : List (GoFieldDecl GoType)), (GoType.beq.go fs fs' = true) ↔ fs = fs'
  | [], [] => by simp [GoType.beq.go]
  | f :: fs, f' :: fs' => by
      have hf := GoType.beq_iff f.fty f'.fty
      have ht := GoType.beq_go_iff fs fs'
      obtain ⟨fn, fa, fg, fy⟩ := f
      obtain ⟨fn', fa', fg', fy'⟩ := f'
      simp only [GoType.beq.go, Bool.and_eq_true, beq_iff_eq] at *
      simp [hf, ht, and_assoc, GoFieldDecl.mk.injEq, List.cons.injEq]
  | [], _ :: _ => by simp [GoType.beq.go]
  | _ :: _, [] => by simp [GoType.beq.go]
end

instance : DecidableEq GoType := fun a b => decidable_of_iff _ (GoType.beq_iff a b)

namespace GoType

/-- `reflect.Type.Kind()`. -/
def kind : GoType → GoKind
  | .prim _ _ k => k
  | .strukt _ _ _ => .strukt
  | .slice _ _ _ => .slice
  | .ptr _ => .ptr

/-- `reflect.Type.Name()`. -/
def name : GoType → String
  | .prim n _ _ => n
  | .strukt n _ _ => n
  | .slice n _ _ => n
  | .ptr _ => ""

/-- `reflect.Type.PkgPath()`. -/
def pkgPath : GoType → String
  | .prim _ p _ => p
  | .strukt _ p _ => p
  | .slice _ p _ => p
  | .ptr _ => ""

/-- Declared fields of a struct type (empty for non-structs, which only
`NumField`-style callers guarded by a kind check ever rely on). -/
def fieldsOf : GoType → List (GoFieldDecl GoType)
  | .strukt _ _ fs => fs
  | _ => []

/-- `reflect.Type.NumField()` for struct types. -/
def numFields (t : GoType) : Nat := t.fieldsOf.length

/-- `reflect.Type.Elem()` for pointer and slice types (the type itself
otherwise; real Go panics, but every call site checks the kind first). -/
def elem : GoType → GoType
  | .ptr e => e
  | .slice _ _ e => e
  | t => t

/-- A loose model of `reflect.Type.String()`: enough to name a type in the
unsupported-type panic message.  Named types print as `shortPkg.Name` like
reflect does (the model keeps the short package name in `pkgPath`). -/
def str : GoType → String
  | .prim n p k =>
      if n = "" then
        (if k = .map_ then "map[string]interface \x7b\x7d"
         else if k = .iface then "interface \x7b\x7d" else k.str)
      else if p = "" then n else p ++ "." ++ n
  | .strukt n p _ =>
      if n = "" then "struct \x7b ... \x7d"
      else if p = "" then n else p ++ "." ++ n
  | .slice n p e =>
      if n = "" then "[]" ++ e.str
      else if p = "" then n else p ++ "." ++ n
  | .ptr e => "*" ++ e.str

/-- A size measure used only to pick fuel for the document build. -/
def size : GoType → Nat
  | .prim _ _ _ => 1
  | .strukt _ _ fs => 1 + go fs
  | .slice _ _ e => 1 + e.size
  | .ptr e => 1 + e.size
where go : List (GoFieldDecl GoType) → Nat
  | [] => 0
  | f :: fs => 1 + f.fty.size + go fs

end GoType

/-- The metadata of `reflect.StructField` the generator reads after `Field`
construction (`Name`, `Anonymous`, `Tag`); the field's `Type` is consumed
during construction only. -/
structure StructFieldMeta where
  name : String
  anonymous : Bool
  tags : List GoTag
  deriving DecidableEq, Repr

/-- The zero `reflect.StructField`. -/
def StructFieldMeta.zero : StructFieldMeta := ⟨"", false, []⟩

def metaOf (fd : GoFieldDecl GoType) : StructFieldMeta := ⟨fd.fname, fd.anon, fd.tags⟩

/-- `Tag.Get(key)`: first matching tag pair, default `""`. -/
def tagGet (tags : List GoTag) (key : String) : String :=
  match tags.find? (fun t => t.key == key) with
  | some t => t.val
  | none => ""

/-- field.go's `Field`.  `Interface`/`Value` are represented by `isNil`
(whether the field was created from a nil interface) plus `type`: every
value the generator introspects is determined by its dynamic type (zero
values throughout), so no further value component is observable.
The `DataTyper` member is never read (it is only set on registry entries,
which carry their typer in `DataTypeDef`), so it is omitted. -/
structure Field where
  isNil : Bool
  type : GoType
  kind : GoKind
  structField : StructFieldMeta
  fromStructField : Bool
  deriving DecidableEq

/-- `Field{}`: the result of `NewField(nil)`.  The nil `reflect.Type` is a
sentinel no real type equals and nothing registers. -/
def Field.nilField : Field :=
  ⟨true, .prim "!nil" "!nil" .invalid, .invalid, .zero, false⟩

/-- The `if deference && k == reflect.Ptr` step of `newField`. -/
def derefOnce (t : GoType) (deference : Bool) : GoType :=
  if deference ∧ t.kind = .ptr then t.elem else t

/-- field.go's `newField(v, deference, field)` on a value of type `t`:
one level of pointer dereference when asked. -/
def newField (t : GoType) (deference : Bool) (field : Option StructFieldMeta) : Field :=
  { isNil := false
    type := derefOnce t deference
    kind := (derefOnce t deference).kind
    structField := field.getD .zero
    fromStructField := field.isSome }

/-- `NewField(v, fields...)` for a non-nil value of type `t`
(`NewField(nil)` is `Field.nilField`). -/
def NewField (t : GoType) (field : Option StructFieldMeta := none) : Field :=
  newField t true field

/-- `NewField` on an `interface{}` value: nil gives the empty descriptor. -/
def NewFieldVal : Option GoType → Field
  | none => Field.nilField
  | some t => NewField t

/-- `ZeroSliceValueField(t)` for a slice type: a `Field` for one zero
element.  A zero element of interface type unwraps to a nil interface, so
`NewField` sees nil and yields the empty descriptor. -/
def ZeroSliceValueField (t : GoType) : Field :=
  match t with
  | .slice _ _ e => if e.kind = .iface then Field.nilField else NewField e
  | _ => Field.nilField

/-- The value of a struct field as `enumerateStructFieldsInner` reads it:
`getterField.Interface()` on the zero struct, handed to `NewField` with the
field's declaration.  A field of interface type holds a nil interface. -/
def fieldOfDecl (fd : GoFieldDecl GoType) : Field :=
  if fd.fty.kind = .iface then Field.nilField
  else NewField fd.fty (some (metaOf fd))

/-- sashay.go's `isExportedName`: last dot-separated component's first byte
in `A`–`Z` (65–90).  `splitOn` always returns at least one part, so the
`getLastD` default is never used; the source panics on `""`, every caller
guards, and the model returns `false` there. -/
def isExportedName (s : String) : Bool :=
  let parts := s.toList.splitOn '.'
  match parts.getLastD [] with
  | [] => false
  | c :: _ => 65 ≤ c.toNat ∧ c.toNat ≤ 90

/-- sashay.go's `isExportedField`. -/
def isExportedField (f : GoFieldDecl GoType) : Bool :=
  if f.fname = "" ∨ f.anon then true else isExportedName f.fname

/-- The matches Go's `Type.FieldByName` breadth-first search finds at the
exact embedding depth `d` in `t`: the declared type of each field named
`name` there (anonymous fields match by their own name too), paired with
whether the path to it dereferences a pointer-embedded struct.  The search
descends only through anonymous fields of struct or pointer-to-struct
type, once per occurrence, so a type embedded twice contributes its fields
twice (Go's ambiguity count). -/
def matchesAtDepth : Nat → GoType → String → List (GoType × Bool)
  | 0, t, name =>
      (t.fieldsOf.filter (fun d => d.fname = name)).map (fun d => (d.fty, false))
  | d + 1, t, name =>
      t.fieldsOf.flatMap (fun fd =>
        if fd.anon then
          match fd.fty with
          | .strukt _ _ _ => matchesAtDepth d fd.fty name
          | .ptr e =>
              if e.kind = .strukt then (matchesAtDepth d e name).map (fun m => (m.1, true))
              else []
          | _ => []
        else [])

/-- `reflect.Value.FieldByName` on a (zero) value of type `t`: Go stops at
the shallowest embedding depth with matches; a unique match there is
found, while no match anywhere and an ambiguity both give the zero
`reflect.Value`.  A type of size `n` has embedding depth below `n`. -/
def fieldByNameAux : Nat → Nat → GoType → String → Option (GoType × Bool)
  | 0, _, _, _ => none
  | fuel + 1, d, t, name =>
      match matchesAtDepth d t name with
      | [m] => some m
      | [] => fieldByNameAux fuel (d + 1) t name
      | _ => none

def fieldByName (t : GoType) (name : String) : Option (GoType × Bool) :=
  fieldByNameAux (t.size + 1) 0 t name

/-- The `Field` built from `NewField(getterField.Interface(), fieldDef)`
when the promoted lookup of `fd.fname` resolved to a field of type `ty`
(under shadowing, not the type `fd` declares): an interface-typed field
boxes a nil interface, so `NewField` sees nil. -/
def fieldOfLookup (fd : GoFieldDecl GoType) (ty : GoType) : Field :=
  if ty.kind = .iface then Field.nilField
  else NewField ty (some (metaOf fd))

/-- sashay.go's `enumerateStructFieldsInner`, by structural recursion over
the declared field list of the type being enumerated: skip unexported
fields, splice the walk of an anonymous field's type, wrap the rest.  The
Go code recurses into anonymous fields carrying the parent's struct value,
so every plain field's value is read by promoted name lookup
(`FieldByName`) against the original `top` value: a name shadowed by a
shallower field yields that shallower field's value, an ambiguous or
absent promoted name gives the zero `reflect.Value` whose `CanInterface`
call panics, and a lookup path through a pointer-embedded struct panics on
the zero value's nil pointer.  `NumField` on a non-struct type (an
anonymous field of non-struct type, or a non-struct walked directly) is a
reflect panic.  The `panicWithFileBug` branch is unreachable: looked-up
names are exported, and reading through an unexported anonymous field only
sets the non-propagating embedded read-only flag. -/
def enumerateInnerAt (top : GoType) : GoType → Except String (List Field)
  | .strukt _ _ fs => go fs
  | _ => .error "reflect: NumField of non-struct type"
where go : List (GoFieldDecl GoType) → Except String (List Field)
  | [] => .ok []
  | fd :: rest => do
      let head ←
        if ¬ isExportedField fd then pure []
        else if fd.anon then enumerateInnerAt top fd.fty
        else
          match fieldByName top fd.fname with
          | none => Except.error "reflect: call of reflect.Value.CanInterface on zero Value"
          | some (ty, viaPtr) =>
              if viaPtr then
                Except.error "reflect: indirection through nil pointer to embedded struct"
              else pure [fieldOfLookup fd ty]
      let tail ← go rest
      pure (head ++ tail)

/-- `enumerateStructFieldsInner(field.Type, field.Value)`: at the top level
the lookup value is (a zero value of) the enumerated type itself, since a
pointer value is replaced by `reflect.Zero(fieldType)` and then
`reflect.Indirect` is the identity. -/
def enumerateInner (t : GoType) : Except String (List Field) := enumerateInnerAt t t

/-- sashay.go's `enumerateStructFields` (the struct value only supplies zero
field values, which `fieldOfDecl` accounts for). -/
def enumerateStructFields (f : Field) : Except String (List Field) :=
  enumerateInner f.type

/-- builder.go's `jsonName`. -/
def jsonName (f : StructFieldMeta) : String :=
  let jsonTag := tagGet f.tags "json"
  if jsonTag ≠ "-" then
    let parts := (jsonTag.toList.splitOn ',').map (fun l => String.mk l)
    if parts.length > 1 ∧ parts.headI = "" then f.name
    else parts.headI
  else ""

/-- builder.go's `schemaRefLink`. -/
def schemaRefLink (f : Field) : String :=
  "#/components/schemas/" ++ f.type.name

/-- Whether `pat` occurs at the start of `l`. -/
def startsWithChars : List Char → List Char → Bool
  | [], _ => true
  | _ :: _, [] => false
  | p :: ps, c :: cs => p = c ∧ startsWithChars ps cs

/-- Whether `pat` occurs anywhere in `l` (used by theorems to speak about
substrings of an emitted document). -/
def containsChars (pat : List Char) : List Char → Bool
  | [] => pat.isEmpty
  | c :: rest => startsWithChars pat (c :: rest) || containsChars pat rest

def strContains (doc pat : String) : Bool := containsChars pat.toList doc.toList

/-- Byte-wise `<` on strings, as Go compares them (ASCII throughout this
code base, where byte order and code-point order agree). -/
def charsLt : List Char → List Char → Bool
  | [], [] => false
  | [], _ :: _ => true
  | _ :: _, [] => false
  | a :: as, b :: bs =>
      if a.toNat < b.toNat then true
      else if b.toNat < a.toNat then false
      else charsLt as bs

def strLt (a b : String) : Bool := charsLt a.toList b.toList

/-- Replace-on-insert update of an association list, modelling assignment
into a Go map.  (Iteration order of Go maps is random; every place the
source iterates a map it sorts the entries by a total order on the distinct
keys, so keeping insertion order here is sound.) -/
def assocSet {κ ν : Type} [DecidableEq κ] (m : List (κ × ν)) (k : κ) (v : ν) :
    List (κ × ν) :=
  match m with
  | [] => [(k, v)]
  | (k', v') :: rest => if k' = k then (k, v) :: rest else (k', v') :: assocSet rest k v

def assocFind? {κ ν : Type} [DecidableEq κ] (m : List (κ × ν)) (k : κ) : Option ν :=
  match m with
  | [] => none
  | (k', v') :: rest => if k' = k then some v' else assocFind? rest k

namespace Builtin

/-- Predeclared Go types (`Name` set, `PkgPath` empty) and `time.Time`.
`time.Time`'s three unexported fields are stood in for by scalar fields:
the walker only ever checks their (unexported, non-anonymous) names. -/
def intT : GoType := .prim "int" "" .int
def int32T : GoType := .prim "int32" "" .int32
def int64T : GoType := .prim "int64" "" .int64
def float32T : GoType := .prim "float32" "" .float32
def float64T : GoType := .prim "float64" "" .float64
def stringT : GoType := .prim "string" "" .string_
def boolT : GoType := .prim "bool" "" .bool
def timeT : GoType :=
  .strukt "Time" "time"
    [⟨"wall", false, [], .prim "uint64" "" .int64⟩,
     ⟨"ext", false, [], .prim "int64" "" .int64⟩,
     ⟨"loc", false, [], .ptr (.strukt "Location" "time" [])⟩]

end Builtin

/-- data_types.go's `ObjectFields` (`map[string]string`), as an association
list with unique keys. -/
def ObjectFields := List (String × String)

def ObjectFields.empty : ObjectFields := []

def ObjectFields.set (of : ObjectFields) (k v : String) : ObjectFields :=
  assocSet of k v

/-- The comparator of `ObjectFields.Sorted`: `"type"` first, remaining keys
in byte order. -/
def ofLess (a b : String × String) : Bool :=
  if a.1 = "type" then true
  else if b.1 = "type" then false
  else strLt a.1 b.1

/-- Insertion sort with a boolean "strictly before" comparator.  This models
Go's `sort.Slice`/`sort.Sort`: any comparison sort agrees with it wherever
the comparator totally orders the distinct elements at hand; for ties Go
specifies no order, and theorems below assume tie-freedom where they depend
on one. -/
def insertBy {α : Type} (less : α → α → Bool) (x : α) : List α → List α
  | [] => [x]
  | y :: ys => if less x y then x :: y :: ys else y :: insertBy less x ys

def sortBy {α : Type} (less : α → α → Bool) : List α → List α
  | [] => []
  | x :: xs => insertBy less x (sortBy less xs)

/-- data_types.go's `ObjectFields.Sorted` (each entry `[key, value]`). -/
def ObjectFields.sorted (of : ObjectFields) : List (String × String) :=
  sortBy ofLess of

/-- data_types.go's `DataTyper`, in its mutating form
`func(f Field, of ObjectFields)`: the model returns the updated map. -/
def DataTyper := Field → ObjectFields → ObjectFields

/-- data_types.go's `SimpleDataTyper`. -/
def SimpleDataTyper (swaggerType format : String) : DataTyper := fun f of =>
  let of := of.set "type" swaggerType
  let of := if format ≠ "" then of.set "format" format else of
  if f.kind = .ptr then of.set "nullable" "true" else of

/-- data_types.go's `DefaultDataTyper`. -/
def DefaultDataTyper : DataTyper := fun f of =>
  let d := tagGet f.structField.tags "default"
  if d ≠ "" then of.set "default" d else of

/-- data_types.go's `ChainDataTyper`. -/
def ChainDataTyper (typers : List DataTyper) : DataTyper := fun f of =>
  typers.foldl (fun of t => t f of) of

def noopDataTyper : DataTyper := fun _ of => of

/-- data_types.go's `BuiltinDataTyperFor`, switching on the value's dynamic
type (pointer variants included, as in the source's `case int, ..., *int:`). -/
def BuiltinDataTyperFor (t : GoType) (chained : List DataTyper) : DataTyper :=
  let dt :=
    if t = Builtin.intT ∨ t = Builtin.int64T ∨ t = .ptr Builtin.intT ∨ t = .ptr Builtin.int64T then
      SimpleDataTyper "integer" "int64"
    else if t = Builtin.int32T ∨ t = .ptr Builtin.int32T then
      SimpleDataTyper "integer" "int32"
    else if t = Builtin.stringT ∨ t = .ptr Builtin.stringT then
      SimpleDataTyper "string" ""
    else if t = Builtin.boolT ∨ t = .ptr Builtin.boolT then
      SimpleDataTyper "boolean" ""
    else if t = Builtin.float64T ∨ t = .ptr Builtin.float64T then
      SimpleDataTyper "number" "double"
    else if t = Builtin.float32T ∨ t = .ptr Builtin.float32T then
      SimpleDataTyper "number" "float"
    else if t = Builtin.timeT ∨ t = .ptr Builtin.timeT then
      SimpleDataTyper "string" "date-time"
    else noopDataTyper
  ChainDataTyper ([dt, DefaultDataTyper] ++ chained)

/-- ASCII-lowercase a string (`strings.ToLower` over this code base's ASCII
inputs). -/
def toLowerStr (s : String) : String := String.mk (s.toList.map Char.toLower)

/-- operation.go's `NewMethod`. -/
def NewMethod (s : String) : String := toLowerStr s

/-- `[A-Za-z0-9]`, the character class of `swaggerPathReplace`. -/
def isAlnum (c : Char) : Bool :=
  ('A' ≤ c ∧ c ≤ 'Z') ∨ ('a' ≤ c ∧ c ≤ 'z') ∨ ('0' ≤ c ∧ c ≤ '9')

theorem dropWhile_length_le (p : Char → Bool) (l : List Char) :
    (l.dropWhile p).length ≤ l.length := by
  induction l with
  | nil => simp
  | cons a as ih =>
      by_cases h : p a
      · simp only [List.dropWhile, h]
        exact le_trans ih (by simp)
      · simp [List.dropWhile, h]

/-- operation.go's `NewPath` on the character list:
`swaggerPathReplace.ReplaceAllString(s, "/{$1}")` with pattern
`/:([A-Za-z0-9]+)` — each leftmost match `/:run` (`run` the maximal
nonempty alphanumeric run) becomes `/` `{` run `}`.  Where `/:` is not
followed by an alphanumeric there is no match there, and since no match
can begin at the `:` either, scanning may resume after it.  The fuel
argument only makes the recursion structural (kernel-reducible); every
step consumes at least one character, so any fuel from the input's length
up gives the same result (`newPathFuel_sufficient`). -/
def newPathFuel : Nat → List Char → List Char
  | 0, l => l
  | _ + 1, [] => []
  | fuel + 1, c :: rest =>
      if c = '/' ∧ rest.head? = some ':' then
        let run := rest.tail.takeWhile isAlnum
        if run.isEmpty then '/' :: ':' :: newPathFuel fuel rest.tail
        else '/' :: '{' :: (run ++ '}' :: newPathFuel fuel (rest.tail.dropWhile isAlnum))
      else c :: newPathFuel fuel rest

def newPathAux (l : List Char) : List Char := newPathFuel l.length l

/-- operation.go's `NewPath`. -/
def NewPath (s : String) : String := String.mk (newPathAux s.toList)

/-- `[^A-Za-z0-9_]`, the class `operationIDPathClean` strips. -/
def isAlnumU (c : Char) : Bool := isAlnum c ∨ c = '_'

/-- Uppercase the first character and keep the rest:
`strings.ToUpper(piece[0:1]) + piece[1:]` for a nonempty piece. -/
def titleCasePiece : List Char → List Char
  | [] => []
  | c :: rest => c.toUpper :: rest

/-- operation.go's `NewOperationID`: lowercase the method; in the path turn
`/` and `-` into `_`, strip other non-alphanumerics, trim `_` from both
ends, split on `_` and title-case the pieces.  `piece[0:1]` of an empty
piece is a Go slice-bounds panic, modelled as the error. -/
def NewOperationID (method path : String) : Except String String := do
  let p := path.toList.map (fun c => if c = '/' ∨ c = '-' then '_' else c)
  let p := p.filter isAlnumU
  let p := (p.dropWhile (· = '_')).reverse.dropWhile (· = '_') |>.reverse
  let pieces := p.splitOn '_'
  if pieces.any List.isEmpty then
    .error "runtime error: slice bounds out of range"
  else
    .ok ((toLowerStr method) ++ String.mk (pieces.flatMap titleCasePiece))

/-- operation.go's `Response` (after `NewResponse` has run: code already a
string, shape already a `Field`). -/
structure Response where
  code : String
  description : String
  field : Field
  deriving DecidableEq

/-- operation.go's `NewResponse` (`-1` becomes `default`). -/
def NewResponse (code : Int) (description : String) (shape : Option GoType) : Response :=
  ⟨if code = -1 then "default" else toString code, description, NewFieldVal shape⟩

/-- The `interface{}`-typed `ReturnOk`/`ReturnErr` argument of an
`Operation`: nil, a plain shape value, a `Response`, or a `Responses`
slice. -/
inductive RetVal where
  | nil
  | shape (t : GoType)
  | resp (r : Response)
  | resps (rs : List Response)
  deriving DecidableEq

/-- operation.go's `Operation` as the caller builds it (`params` is the
`interface{}` parameter shape: `none` for nil). -/
structure Operation where
  method : String
  path : String
  summary : String
  description : String
  params : Option GoType
  returnOk : RetVal
  returnErr : RetVal
  tags : List String
  deriving DecidableEq

/-- operation.go's `Operation.responses`. -/
def Operation.responses (op : Operation) : List Response :=
  let okPart : List Response :=
    match op.returnOk with
    | .resps rs => rs
    | .resp r => [r]
    | .nil =>
        [NewResponse 204 "The operation completed successfully." none]
    | .shape t =>
        if NewMethod op.method = "post" then [NewResponse 201 "ok response" (some t)]
        else [NewResponse 200 "ok response" (some t)]
  let errPart : List Response :=
    match op.returnErr with
    | .resps rs => rs
    | .resp r => [r]
    | .nil => [NewResponse (-1) "error response" none]
    | .shape t => [NewResponse (-1) "error response" (some t)]
  okPart ++ errPart

/-- operation.go's `internalOperation` (the `Original` copy is only read by
`SelectMap`, which no claim touches, and is omitted). -/
structure InternalOperation where
  method : String
  path : String
  operationID : String
  summary : String
  description : String
  params : Field
  responses : List Response
  tags : List String
  deriving DecidableEq

/-- operation.go's `Operation.toInternalOperation`; the `NewOperationID`
panic propagates. -/
def Operation.toInternalOperation (op : Operation) : Except String InternalOperation := do
  let oid ← NewOperationID op.method op.path
  .ok
    { method := NewMethod op.method
      path := NewPath op.path
      operationID := oid
      summary := op.summary
      description := op.description
      params := NewFieldVal op.params
      responses := op.responses
      tags := op.tags }

/-- operation.go's `internalOperation.useRequestBody`. -/
def InternalOperation.useRequestBody (o : InternalOperation) : Bool :=
  (o.method = "post" ∨ o.method = "put") ∧ ¬ o.params.isNil

/-- data_types.go's `dataTypeDef`. -/
structure DataTypeDef where
  field : Field
  dataTyper : DataTyper

/-- sashay.go's `Sashay` registry. -/
structure Sashay where
  defaultContentType : String
  title : String
  desc : String
  version : String
  operations : List InternalOperation
  servers : List (String × String)
  securities : List (List (String × String))
  tos : String
  contactName : String
  contactURL : String
  contactEmail : String
  licenseName : String
  licenseURL : String
  tags : List (String × String)
  dataTypesForTypes : List (GoType × DataTypeDef)
  dataTypesForKinds : List (GoKind × DataTypeDef)

/-- sashay.go's `defineDataTypeForKind` (only scalar kinds are recorded). -/
def Sashay.defineDataTypeForKind (sa : Sashay) (kind : GoKind) (dt : DataTypeDef) : Sashay :=
  match kind with
  | .bool | .int | .int32 | .int64 | .float32 | .float64 | .string_ =>
      { sa with dataTypesForKinds := assocSet sa.dataTypesForKinds kind dt }
  | _ => sa

/-- sashay.go's `DefineDataType`: register under the (dereferenced) type,
under the pointer-to-it variant when the value was not already a pointer,
and under the kind. -/
def Sashay.defineDataType (sa : Sashay) (t : GoType) (dt : DataTyper) : Sashay :=
  let f := NewField t
  let dtd : DataTypeDef := ⟨f, dt⟩
  let sa := { sa with dataTypesForTypes := assocSet sa.dataTypesForTypes f.type dtd }
  let sa :=
    if f.kind ≠ .ptr then
      let ptrF := newField (.ptr f.type) false none
      { sa with dataTypesForTypes := assocSet sa.dataTypesForTypes ptrF.type ⟨ptrF, dt⟩ }
    else sa
  sa.defineDataTypeForKind f.kind dtd

/-- sashay.go's `BuiltinDataTypeValues` (the types of the listed values). -/
def BuiltinDataTypeValues : List GoType :=
  [Builtin.intT, Builtin.int64T, Builtin.int32T, Builtin.stringT,
   Builtin.boolT, Builtin.float64T, Builtin.float32T, Builtin.timeT]

/-- sashay.go's `New`. -/
def Sashay.new (title desc version : String) : Sashay :=
  let sa : Sashay :=
    { defaultContentType := "application/json"
      title := title, desc := desc, version := version
      operations := [], servers := [], securities := []
      tos := "", contactName := "", contactURL := "", contactEmail := ""
      licenseName := "", licenseURL := "", tags := []
      dataTypesForTypes := [], dataTypesForKinds := [] }
  BuiltinDataTypeValues.foldl (fun sa v => sa.defineDataType v (BuiltinDataTyperFor v [])) sa

/-- sashay.go's `Add` (the `toInternalOperation` panic propagates out of
`Add` in Go; the model returns it). -/
def Sashay.add (sa : Sashay) (op : Operation) : Except String Sashay := do
  let iop ← op.toInternalOperation
  .ok { sa with operations := sa.operations ++ [iop] }

/-- Add a list of operations in order. -/
def Sashay.addAll (sa : Sashay) : List Operation → Except String Sashay
  | [] => .ok sa
  | op :: rest => do (← sa.add op).addAll rest

/-- sashay.go's `dataTypeDefFor`: exact type first, kind fallback. -/
def Sashay.dataTypeDefFor (sa : Sashay) (f : Field) : Option DataTypeDef :=
  match assocFind? sa.dataTypesForTypes f.type with
  | some dtd => some dtd
  | none => assocFind? sa.dataTypesForKinds f.kind

/-- sashay.go's `isMappedToDataType`: exact-type entry only. -/
def Sashay.isMappedToDataType (sa : Sashay) (f : Field) : Bool :=
  (assocFind? sa.dataTypesForTypes f.type).isSome

/-- One emitted line: `writeLn`'s two spaces per indent level, then the
text (the final `\n` is added when the document is joined). -/
def line (indent : Nat) (s : String) : String :=
  String.mk (List.replicate (2 * indent) ' ') ++ s

/-- A single-quote character, and single-quoting as the YAML writer does
for response codes and `$ref` values. -/
def squoteCh : Char := Char.ofNat 39

def squote (s : String) : String :=
  String.mk [squoteCh] ++ s ++ String.mk [squoteCh]

/-- The message of builder.go `writeDataType`'s panic. -/
def unsupportedMsg (f : Field) : String :=
  "No dataTypeDef defined for kind " ++ f.kind.str ++ ", type " ++ f.type.str ++
    ". You should either change the type, or add a custom data type mapper. " ++
    "See Representing Custom Types at " ++
    "https://godoc.org/github.com/cloudability/sashay#hdr-Sashay_Detail__Representing_Custom_Types " ++
    "for more information."

/-- The model's out-of-fuel sentinel; real Go recurses without bound on the
(cyclic) type graphs that reach it. -/
def fuelErr : String := "model: out of fuel"

/-- builder.go's `writeDataType`. -/
def writeDataType (sa : Sashay) (indent : Nat) (f : Field) : Except String (List String) :=
  match sa.dataTypeDefFor f with
  | none => .error (unsupportedMsg f)
  | some dtd =>
      .ok (((dtd.dataTyper f ObjectFields.empty).sorted).map
        (fun kv => line indent (kv.1 ++ ": " ++ kv.2)))

/-- builder.go's `writeRefSchema`. -/
def writeRefSchema (sa : Sashay) : Nat → Nat → Field → Except String (List String)
  | 0, _, _ => .error fuelErr
  | fuel + 1, indent, f =>
    if f.kind = .slice then do
      let inner ← writeRefSchema sa fuel (indent + 1) (ZeroSliceValueField f.type)
      .ok (line indent "type: array" :: line indent "items:" :: inner)
    else if f.kind = .strukt then
      if f.type.numFields = 0 then .ok [line indent "type: object"]
      else if sa.isMappedToDataType f then writeDataType sa indent f
      else .ok [line indent ("$ref: " ++ squote (schemaRefLink f))]
    else writeDataType sa indent f

/-- builder.go's `writeStructSchema`: `type: object`, then `properties:`
before the first field with a nonempty JSON name (`writeOnce`), then one
block per visible field, in order (the Go loop body is the `mapM`
function; a field it skips contributes the empty block). -/
def writeStructSchema (sa : Sashay) (recurse : Field → Bool) :
    Nat → Nat → Field → Except String (List String)
  | 0, _, _ => .error fuelErr
  | fuel + 1, indent, f => do
      let fs ← enumerateStructFields f
      let blocks ← fs.mapM (fun field => do
        let fieldJSONName := jsonName field.structField
        if fieldJSONName = "" then pure []
        else if field.kind = .strukt then do
          let inner ←
            if recurse field then writeStructSchema sa recurse fuel (indent + 2) field
            else writeRefSchema sa fuel (indent + 2) field
          pure (line (indent + 1) (fieldJSONName ++ ":") :: inner)
        else if field.kind = .slice then do
          let sliceField := ZeroSliceValueField field.type
          let inner ←
            if sliceField.kind = .strukt then
              if recurse sliceField then writeStructSchema sa recurse fuel (indent + 3) sliceField
              else writeRefSchema sa fuel (indent + 3) sliceField
            else writeDataType sa (indent + 3) sliceField
          pure (line (indent + 1) (fieldJSONName ++ ":") ::
            line (indent + 2) "type: array" :: line (indent + 2) "items:" :: inner)
        else do
          let inner ← writeDataType sa (indent + 2) field
          pure (line (indent + 1) (fieldJSONName ++ ":") :: inner))
      let props := blocks.flatten
      if props.isEmpty then .ok [line indent "type: object"]
      else .ok (line indent "type: object" :: line indent "properties:" :: props)

/-- builder.go's `writeParams` field loop: location tag precedence
path/query/header, then the parameter block. -/
def writeParamFields (sa : Sashay) (fuel indent : Nat) :
    List Field → Except String (List String)
  | [] => .ok []
  | field :: rest => do
      let tags := field.structField.tags
      let loc :=
        if tagGet tags "path" ≠ "" then some (tagGet tags "path", "path")
        else if tagGet tags "query" ≠ "" then some (tagGet tags "query", "query")
        else if tagGet tags "header" ≠ "" then some (tagGet tags "header", "header")
        else none
      let head ←
        match loc with
        | none => pure []
        | some (name, l) => do
            let schema ← writeRefSchema sa fuel (indent + 3) field
            pure ([line (indent + 1) ("- name: " ++ name), line (indent + 1) ("  in: " ++ l)] ++
              (if l = "path" then [line (indent + 1) "  required: true"] else []) ++
              (if tagGet tags "description" ≠ "" then
                [line (indent + 1) ("  description: " ++ tagGet tags "description")] else []) ++
              [line (indent + 1) "  schema:"] ++ schema)
      let tail ← writeParamFields sa fuel indent rest
      pure (head ++ tail)

/-- builder.go's `writeParams`: `parameters:` once, before the first
emitted block (`writeOnce`). -/
def writeParams (sa : Sashay) (fuel indent : Nat) (f : Field) : Except String (List String) := do
  let fs ← enumerateStructFields f
  let blocks ← writeParamFields sa fuel indent fs
  if blocks.isEmpty then .ok []
  else .ok (line indent "parameters:" :: blocks)

/-- builder.go's `methodWeights` map, with Go's zero default for missing
methods. -/
def methodWeight (m : String) : Nat :=
  if m = "get" then 1 else if m = "post" then 2 else if m = "put" then 3
  else if m = "patch" then 4 else if m = "delete" then 5 else 0

/-- The comparator of `sortedOperations`. -/
def opLess (a b : InternalOperation) : Bool :=
  if a.path = b.path then methodWeight a.method < methodWeight b.method
  else strLt a.path b.path

/-- builder.go's `sortedOperations` (`sort.Slice` modelled as insertion
sort; ties between equal path/weight pairs have no specified order in Go). -/
def sortedOperations (sa : Sashay) : List InternalOperation :=
  sortBy opLess sa.operations

/-- The response block of builder.go's `writePaths` loop: quoted code,
description, and — for a non-nil body — content with `text/plain` for
string-kind bodies and the document content type otherwise. -/
def responseLines (sa : Sashay) (fuel : Nat) (resp : Response) : Except String (List String) := do
  let head := [line 4 (squote resp.code ++ ":"), line 5 ("description: " ++ resp.description)]
  if resp.field.isNil then .ok head
  else do
    let ctLine :=
      if resp.field.kind = .string_ then line 6 "text/plain:"
      else line 6 (sa.defaultContentType ++ ":")
    let schema ← writeRefSchema sa fuel 8 resp.field
    .ok (head ++ (line 5 "content:" :: ctLine :: line 7 "schema:" :: schema))

def responsesLines (sa : Sashay) (fuel : Nat) : List Response → Except String (List String)
  | [] => .ok []
  | r :: rest => do
      let h ← responseLines sa fuel r
      let t ← responsesLines sa fuel rest
      .ok (h ++ t)

/-- The per-operation body of builder.go's `writePaths` loop (everything
below the path/method headers). -/
def operationLines (sa : Sashay) (fuel : Nat) (op : InternalOperation) :
    Except String (List String) := do
  let tagLines :=
    if op.tags.length > 0 then
      [line 3 ("tags: [\"" ++ String.intercalate "\", \"" op.tags ++ "\"]")]
    else []
  let idLines := [line 3 ("operationId: " ++ op.operationID)]
  let sumLines := if op.summary ≠ "" then [line 3 ("summary: " ++ op.summary)] else []
  let descLines :=
    if op.description ≠ "" then [line 3 ("description: " ++ op.description)] else []
  let paramLines ← if ¬ op.params.isNil then writeParams sa fuel 3 op.params else pure []
  let bodyLines ←
    if op.useRequestBody then do
      let schema ← writeStructSchema sa (fun f => ¬ sa.isMappedToDataType f) fuel 7 op.params
      pure ([line 3 "requestBody:", line 4 "required: true", line 4 "content:",
        line 5 (sa.defaultContentType ++ ":"), line 6 "schema:"] ++ schema)
    else pure []
  let resps ← responsesLines sa fuel op.responses
  .ok (tagLines ++ idLines ++ sumLines ++ descLines ++ paramLines ++ bodyLines ++
    (line 3 "responses:" :: resps))

/-- builder.go `writePaths`'s operation loop: path and method header lines
are emitted only when they change from the previous operation. -/
def writePathsLoop (sa : Sashay) (fuel : Nat) :
    String → String → List InternalOperation → Except String (List String)
  | _, _, [] => .ok []
  | lastPath, lastMethod, op :: rest => do
      let headers :=
        if lastPath ≠ op.path then [line 1 (op.path ++ ":"), line 2 (op.method ++ ":")]
        else if lastMethod ≠ op.method then [line 2 (op.method ++ ":")]
        else []
      let next :=
        if lastPath ≠ op.path then (op.path, op.method)
        else if lastMethod ≠ op.method then (lastPath, op.method)
        else (lastPath, lastMethod)
      let body ← operationLines sa fuel op
      let tail ← writePathsLoop sa fuel next.1 next.2 rest
      .ok (headers ++ body ++ tail)

/-- builder.go's `writePaths`. -/
def writePaths (sa : Sashay) (fuel : Nat) : Except String (List String) := do
  let ops ← writePathsLoop sa fuel "" "" (sortedOperations sa)
  .ok (line 0 "paths:" :: ops)

/-- builder.go's `componentsBuilder.visitStructs`, returning the fields the
visitor records in depth-first order: slices are replaced by an element
descriptor, data-type-mapped types by their registered descriptor; only
structs are recorded and recursed into. -/
def visitStructs (sa : Sashay) : Nat → Field → Except String (List Field)
  | 0, _ => .error fuelErr
  | fuel + 1, f =>
      let f := if f.kind = .slice then ZeroSliceValueField f.type else f
      let f := match sa.dataTypeDefFor f with | some d => d.field | none => f
      if f.kind ≠ .strukt then .ok []
      else do
        let fs ← enumerateStructFields f
        let subs ← fs.mapM (visitStructs sa fuel)
        .ok (f :: subs.flatten)

/-- field.go's `Fields.Compact`. -/
def compactFields (fs : List Field) : List Field := fs.filter (fun f => ¬ f.isNil)

/-- field.go's `Fields.FlattenSliceTypes`. -/
def flattenSliceTypes (fs : List Field) : List Field :=
  fs.map (fun f => if f.type.kind = .slice then ZeroSliceValueField f.type else f)

/-- field.go's `Fields.Distinct`: keep the first occurrence of each type
(the `seen` map is the accumulator). -/
def distinctFields : List Field → List GoType → List Field
  | [], _ => []
  | f :: rest, seen =>
      if f.type ∈ seen then distinctFields rest seen
      else f :: distinctFields rest (f.type :: seen)

/-- field.go's `Fields.RemoveAnonymousTypes`. -/
def removeAnonymousTypes (fs : List Field) : List Field :=
  fs.filter (fun f => f.type.pkgPath ≠ "")

/-- field.go's `Fields.Less` (`sort.Sort` comparator): type name order. -/
def fieldsLess (a b : Field) : Bool := strLt a.type.name b.type.name

/-- The visitor run of `sortedFieldsForSchema`: every response of every
registered operation, in registration order. -/
def visitResponses (sa : Sashay) (fuel : Nat) : List Response → Except String (List Field)
  | [] => .ok []
  | r :: rest => do
      let h ← visitStructs sa fuel r.field
      let t ← visitResponses sa fuel rest
      .ok (h ++ t)

def visitOperations (sa : Sashay) (fuel : Nat) : List InternalOperation → Except String (List Field)
  | [] => .ok []
  | op :: rest => do
      let h ← visitResponses sa fuel op.responses
      let t ← visitOperations sa fuel rest
      .ok (h ++ t)

/-- The `allFields` list accumulated by `sortedFieldsForSchema`'s visitor. -/
def allResponseFields (sa : Sashay) (fuel : Nat) : Except String (List Field) :=
  visitOperations sa fuel sa.operations

/-- builder.go's `sortedFieldsForSchema`:
`allFields.Compact().FlattenSliceTypes().Distinct().RemoveAnonymousTypes()`
then `sort.Sort`. -/
def sortedFieldsForSchema (sa : Sashay) (fuel : Nat) : Except String (List Field) := do
  let allFields ← allResponseFields sa fuel
  .ok (sortBy fieldsLess
    (removeAnonymousTypes (distinctFields (flattenSliceTypes (compactFields allFields)) [])))

/-- builder.go's `shouldRecurseStructField`. -/
def shouldRecurseStructField (f : Field) : Bool :=
  if f.type.name = "" then true
  else if f.structField.anonymous then true
  else ¬ isExportedName f.type.name

/-- builder.go's `writeSchemas` loop body. -/
def writeSchemasList (sa : Sashay) (fuel : Nat) : List Field → Except String (List String)
  | [] => .ok []
  | tv :: rest => do
      let schema ← writeStructSchema sa shouldRecurseStructField fuel 3 tv
      let t ← writeSchemasList sa fuel rest
      .ok ((line 2 (tv.type.name ++ ":") :: schema) ++ t)

/-- builder.go's `writeSchemas`. -/
def writeSchemas (sa : Sashay) (fuel : Nat) (sortedSchemas : List Field) :
    Except String (List String) := do
  let body ← writeSchemasList sa fuel sortedSchemas
  .ok (line 1 "schemas:" :: body)

/-- `swaggerSecurity.ID` and `.Fields` (all entries but `"id"`, sorted as
`ObjectFields.Sorted`). -/
def securityID (sec : List (String × String)) : String :=
  match assocFind? sec "id" with | some v => v | none => ""

def securityFieldLines (sec : List (String × String)) : List String :=
  line 2 (securityID sec ++ ":") ::
    ((sortBy ofLess (sec.filter (fun kv => kv.1 ≠ "id"))).map
      (fun kv => line 3 (kv.1 ++ ": " ++ kv.2)))

/-- builder.go's `writeSecuritySchemas` and `writeSecurityScopes`. -/
def writeSecuritySchemas (sa : Sashay) : List String :=
  line 1 "securitySchemes:" :: sa.securities.flatMap securityFieldLines

def writeSecurityScopes (sa : Sashay) : List String :=
  line 0 "security:" :: sa.securities.map (fun sec => line 1 ("- " ++ securityID sec ++ ": []"))

/-- builder.go's `writeComponents`: the `components:` header once, before
schemas (if any) and security schemes (if any). -/
def writeComponents (sa : Sashay) (fuel : Nat) : Except String (List String) := do
  let sortedSchemas ← sortedFieldsForSchema sa fuel
  let schemaPart ←
    if sortedSchemas.length > 0 then writeSchemas sa fuel sortedSchemas
    else pure []
  let secPart :=
    if sa.securities.length > 0 then writeSecuritySchemas sa ++ writeSecurityScopes sa
    else []
  if schemaPart.isEmpty ∧ secPart.isEmpty then .ok []
  else .ok (line 0 "components:" :: (schemaPart ++ secPart))

/-- builder.go's `docBuilder.writeInfo`. -/
def writeInfo (sa : Sashay) : List String :=
  [line 0 "openapi: 3.0.0", line 0 "info:",
   line 1 ("title: " ++ sa.title), line 1 ("description: " ++ sa.desc)] ++
  (if sa.tos ≠ "" then [line 1 ("termsOfService: " ++ sa.tos)] else []) ++
  (if sa.contactName ≠ "" ∨ sa.contactURL ≠ "" ∨ sa.contactEmail ≠ "" then
    [line 1 "contact:"] ++
    (if sa.contactName ≠ "" then [line 2 ("name: " ++ sa.contactName)] else []) ++
    (if sa.contactURL ≠ "" then [line 2 ("url: " ++ sa.contactURL)] else []) ++
    (if sa.contactEmail ≠ "" then [line 2 ("email: " ++ sa.contactEmail)] else [])
  else []) ++
  (if sa.licenseName ≠ "" ∨ sa.licenseURL ≠ "" then
    [line 1 "license:"] ++
    (if sa.licenseName ≠ "" then [line 2 ("name: " ++ sa.licenseName)] else []) ++
    (if sa.licenseURL ≠ "" then [line 2 ("url: " ++ sa.licenseURL)] else [])
  else []) ++
  [line 1 ("version: " ++ sa.version)]

/-- builder.go's `docBuilder.writeTags`. -/
def writeTagsDoc (sa : Sashay) : List String :=
  if sa.tags.isEmpty then []
  else line 0 "tags:" ::
    sa.tags.flatMap (fun t => [line 1 ("- name: " ++ t.1), line 1 ("  description: " ++ t.2)])

/-- builder.go's `docBuilder.writeServers`. -/
def writeServersDoc (sa : Sashay) : List String :=
  if sa.servers.isEmpty then []
  else line 0 "servers:" ::
    sa.servers.flatMap (fun s => [line 1 ("- url: " ++ s.1), line 1 ("  description: " ++ s.2)])

/-- A size measure of everything the build recurses through, used to pick
the build's fuel. -/
def Field.fsize (f : Field) : Nat := f.type.size

def InternalOperation.osize (o : InternalOperation) : Nat :=
  o.params.fsize + (o.responses.map (fun r => r.field.fsize)).sum

def Sashay.fuelFor (sa : Sashay) : Nat :=
  1 + (sa.operations.map InternalOperation.osize).sum +
    (sa.dataTypesForTypes.map (fun kv => kv.1.size + kv.2.field.fsize)).sum +
    (sa.dataTypesForKinds.map (fun kv => kv.2.field.fsize)).sum

/-- sashay.go's `WriteYAML`: info, tags, servers, paths, components. -/
def WriteYAML (sa : Sashay) : Except String (List String) := do
  let paths ← writePaths sa sa.fuelFor
  let comps ← writeComponents sa sa.fuelFor
  .ok (writeInfo sa ++ writeTagsDoc sa ++ writeServersDoc sa ++ paths ++ comps)

/-- sashay.go's `BuildYAML`: the document as one string, every line ending
in a newline. -/
def BuildYAML (sa : Sashay) : Except String String := do
  let lines ← WriteYAML sa
  .ok (String.join (lines.map (fun l => l ++ String.mk ['\n'])))

/-! Concrete fixtures used by the witnesses and counterexamples below:
small Go type graphs and registries in the shape of the repository's own
examples and tests. -/



/-- Modelled from the spec (§4.2): "A field is visible if its declared
name starts with an uppercase letter OR the field is anonymous/embedded OR
the field has no declared name." -/
def specStartsUpper (s : String) : Bool :=
  match s.toList with
  | [] => false
  | c :: _ => 'A' ≤ c ∧ c ≤ 'Z'

def specVisible (fd : GoFieldDecl GoType) : Bool :=
  specStartsUpper fd.fname || fd.anon || fd.fname == ""

/-- Modelled from the spec (§4.2, C4): declaration order, invisible fields
excluded entirely, anonymous fields replaced by the embedded type's own
visible fields spliced at the embedding's position with no extra nesting.
The per-field descriptor constructor `leaf` is a parameter; `none` where
the spec presupposes a struct type. -/
def walkerSpec (leaf : GoFieldDecl GoType → Field) : GoType → Option (List Field)
  | .strukt _ _ fs => go fs
  | _ => none
where go : List (GoFieldDecl GoType) → Option (List Field)
  | [] => some []
  | fd :: rest => do
      let tail ← go rest
      if ¬ specVisible fd then pure tail
      else if fd.anon then do
        let inner ← walkerSpec leaf fd.fty
        pure (inner ++ tail)
      else pure (leaf fd :: tail)

/-- Go identifiers never contain a dot; the walker comparison assumes this
of every transitively reachable field name. -/
def dotFreeType : GoType → Bool
  | .strukt _ _ fs => go fs
  | _ => true
where go : List (GoFieldDecl GoType) → Bool
  | [] => true
  | fd :: rest => fd.fname.toList.all (· ≠ '.') && dotFreeType fd.fty && go rest

/-- No shadowing and no ambiguity: every visible plain field in the
anonymous-embedding tree of `t` has a name that resolves, by the
promoted-field rules on the `top` type, to its own declaration directly
(not through an embedded pointer), and every anonymous field is of struct
type.  Under this condition the promoted lookup degenerates to reading the
declaration itself. -/
def selfResolving (top : GoType) : GoType → Bool
  | .strukt _ _ fs => go fs
  | _ => false
where go : List (GoFieldDecl GoType) → Bool
  | [] => true
  | fd :: rest =>
      (if ¬ isExportedField fd then true
       else if fd.anon then selfResolving top fd.fty
       else decide (fieldByName top fd.fname = some (fd.fty, false))) && go rest

namespace Fix

open Builtin

/-- `type Pet struct { ID int json:id }` of a test package. -/
def petT : GoType := .strukt "Pet" "sashay_test" [⟨"ID", false, [⟨"json", "id"⟩], intT⟩]

def mkOp (method path summary : String) (params : Option GoType)
    (returnOk returnErr : RetVal) : Operation :=
  { method := method, path := path, summary := summary, description := ""
    params := params, returnOk := returnOk, returnErr := returnErr, tags := [] }

/-- Two operations on the same path and method, differing in summary: a
sort tie. -/
def tieOpA : Operation := mkOp "GET" "/x" "a" none (.shape petT) .nil
def tieOpB : Operation := mkOp "GET" "/x" "b" none .nil .nil

def tieReg1 : Except String Sashay := (Sashay.new "t" "d" "v").addAll [tieOpA, tieOpB]
def tieReg2 : Except String Sashay := (Sashay.new "t" "d" "v").addAll [tieOpB, tieOpA]

/-- Distinct-path operations for the order-independence witness. -/
def okOpA : Operation := mkOp "GET" "/a" "sa" none (.shape petT) .nil
def okOpB : Operation := mkOp "POST" "/b" "sb" none .nil .nil

def okReg1 : Except String Sashay := (Sashay.new "t" "d" "v").addAll [okOpA, okOpB]
def okReg2 : Except String Sashay := (Sashay.new "t" "d" "v").addAll [okOpB, okOpA]

/-- `struct { F bool json:f }` versus `struct { F *bool json:f }`: the C3
pointer-transparency pair, used as the success response of one operation. -/
def valStructT : GoType := .strukt "Box" "sashay_test" [⟨"F", false, [⟨"json", "f"⟩], boolT⟩]
def ptrStructT : GoType := .strukt "Box" "sashay_test" [⟨"F", false, [⟨"json", "f"⟩], .ptr boolT⟩]

def ptrReg (t : GoType) : Except String Sashay :=
  (Sashay.new "t" "d" "v").addAll [mkOp "POST" "/box" "s" (some t) (.shape t) .nil]

/-- `struct { X **int json:x }`: the one pointer shape whose builtin rule
sees `Kind == Ptr` and emits `nullable: true`. -/
def dblPtrT : GoType := .strukt "" "" [⟨"X", false, [⟨"json", "x"⟩], .ptr (.ptr intT)⟩]

def dblPtrReg : Except String Sashay :=
  (Sashay.new "t" "d" "v").addAll [mkOp "POST" "/stuff" "" (some dblPtrT) .nil .nil]

/-- The custom-data-type scenario: `Custom` is mapped to a boolean rule and
used both in a request body and inside the response type. -/
def customT : GoType :=
  .strukt "Custom" "sashay_test" [⟨"Field", false, [⟨"json", "field"⟩], stringT⟩]

def customRespT : GoType :=
  .strukt "Response" "sashay_test" [⟨"Custom", false, [⟨"json", "custom"⟩], customT⟩]

def customSa : Sashay :=
  (Sashay.new "t" "d" "v").defineDataType customT (SimpleDataTyper "boolean" "")

def customReg : Except String Sashay :=
  customSa.addAll
    [mkOp "POST" "/stuff" "Updates stuff."
      (some (.strukt "" "" [⟨"PCustom", false, [⟨"json", "pcustom"⟩], customT⟩]))
      (.shape customRespT) .nil]

/-- A field of type `***Custom`: after the one dereference its kind is
still `ptr`, and no rule exists for it. -/
def triplePtrField : Field :=
  NewField (.ptr (.ptr (.ptr customT))) (some ⟨"Custom", false, [⟨"json", "custom"⟩]⟩)

def triplePtrReg : Except String Sashay :=
  (Sashay.new "t" "d" "v").addAll
    [mkOp "POST" "/stuff" "Updates stuff."
      (some (.strukt "" "" [⟨"Custom", false, [⟨"json", "custom"⟩], .ptr (.ptr (.ptr customT))⟩]))
      .nil .nil]

/-- A POST operation whose `Params` value is a plain string: the
string-kind request-body case of C8. -/
def stringParamsReg : Except String Sashay :=
  (Sashay.new "t" "d" "v").addAll [mkOp "POST" "/s" "" (some stringT) .nil .nil]

/-- A registry whose responses use a string body (text/plain) and a struct
body (default content type). -/
def plainReg : Except String Sashay :=
  (Sashay.new "t" "d" "v").addAll
    [mkOp "GET" "/plain" "plain" none (.resp (NewResponse 200 "desc" (some stringT)))
      (.shape stringT)]

/-- A registry with a parameter-only struct type structurally identical to
the response struct type: only the response one may become a component. -/
def paramTwinT : GoType :=
  .strukt "Twin" "pkga" [⟨"ID", false, [⟨"json", "id"⟩], intT⟩]
def respTwinT : GoType :=
  .strukt "Twin" "pkgb" [⟨"ID", false, [⟨"json", "id"⟩], intT⟩]

def twinReg : Except String Sashay :=
  (Sashay.new "t" "d" "v").addAll
    [mkOp "POST" "/twin" "s" (some paramTwinT) (.shape respTwinT) .nil]


/-- The registry built by `twinReg` (registration succeeds), and the
collector outputs the C2 witness instantiates. -/
def twinSa : Sashay := twinReg.toOption.getD (Sashay.new "" "" "")

def twinAllF : List Field := (allResponseFields twinSa 100).toOption.getD []

def twinOut : List Field := (sortedFieldsForSchema twinSa 100).toOption.getD []


/-- Registries and outputs the C1 witness instantiates. -/
def okSa1 : Sashay := okReg1.toOption.getD (Sashay.new "" "" "")

def okSa2 : Sashay := okReg2.toOption.getD (Sashay.new "" "" "")

def okOut1 : List Field := (sortedFieldsForSchema okSa1 okSa1.fuelFor).toOption.getD []

def okY : String := (BuildYAML okSa1).toOption.getD ""

/-- Shadowing: `Outer` embeds `Inner` (whose `F` is a string) and itself
declares `F int`; the promoted lookup of the embedded declaration `F`
resolves to the outer `F`, so the walker emits the OUTER field's type for
the embedded declaration instead of splicing the embedded string field. -/
def shadowInnerT : GoType :=
  .strukt "Inner" "sashay_test" [⟨"F", false, [⟨"json", "f"⟩], Builtin.stringT⟩]

def shadowOuterT : GoType :=
  .strukt "Outer" "sashay_test"
    [⟨"Inner", true, [], shadowInnerT⟩, ⟨"F", false, [⟨"json", "f2"⟩], Builtin.intT⟩]

/-- Ambiguity: two embedded structs both declare `F`; `FieldByName` on the
parent yields the zero value and the walker panics. -/
def ambInner1T : GoType :=
  .strukt "In1" "sashay_test" [⟨"F", false, [⟨"json", "f"⟩], Builtin.stringT⟩]

def ambInner2T : GoType :=
  .strukt "In2" "sashay_test" [⟨"F", false, [⟨"json", "g"⟩], Builtin.intT⟩]

def ambOuterT : GoType :=
  .strukt "Amb" "sashay_test" [⟨"In1", true, [], ambInner1T⟩, ⟨"In2", true, [], ambInner2T⟩]

/-- The Demo struct of sashay.go's walker comment, with an embedded
(anonymous) struct and unexported fields. -/
def embeddedT : GoType :=
  .strukt "ExportedStruct" "sashay_test" [⟨"Field", false, [⟨"json", "field"⟩], stringT⟩]

def demoT : GoType :=
  .strukt "Demo" "sashay_test"
    [⟨"simpleUnexported", false, [], stringT⟩,
     ⟨"SimpleExported", false, [⟨"json", "string"⟩], stringT⟩,
     ⟨"ExportedStruct", true, [], embeddedT⟩,
     ⟨"Tail", false, [⟨"json", "tail"⟩], intT⟩]

end Fix

/-! ## Claim theorems -/

/-! ## C9: path template translation -/


theorem newPathFuel_sufficient :
    ∀ fuel₁ fuel₂ l, l.length ≤ fuel₁ → l.length ≤ fuel₂ →
      newPathFuel fuel₁ l = newPathFuel fuel₂ l := by
  intro fuel₁
  induction fuel₁ with
  | zero =>
      intro fuel₂ l h1 _
      have : l = [] := List.length_eq_zero.mp (Nat.le_zero.mp h1)
      subst this
      cases fuel₂ <;> rfl
  | succ n ih =>
      intro fuel₂ l h1 h2
      cases fuel₂ with
      | zero =>
          have : l = [] := List.length_eq_zero.mp (Nat.le_zero.mp h2)
          subst this; rfl
      | succ m =>
          cases l with
          | nil => rfl
          | cons c rest =>
              simp only [newPathFuel]
              by_cases hm : c = '/' ∧ rest.head? = some ':'
              · simp only [if_pos hm]
                obtain ⟨hc, hh⟩ := hm
                cases rest with
                | nil => simp at hh
                | cons c2 r2 =>
                    simp only [List.tail_cons]
                    simp only [List.length_cons] at h1 h2
                    by_cases he : (r2.takeWhile isAlnum).isEmpty
                    · simp only [if_pos he]
                      rw [ih m r2 (by omega) (by omega)]
                    · simp only [if_neg he]
                      have hd := dropWhile_length_le isAlnum r2
                      rw [ih m (r2.dropWhile isAlnum) (by omega) (by omega)]
              · simp only [if_neg hm]
                simp only [List.length_cons] at h1 h2
                rw [ih m rest (by omega) (by omega)]

theorem np_len (l : List Char) : newPathAux l = newPathFuel l.length l := rfl

theorem np_no (c : Char) (rest : List Char) (h : ¬ (c = '/' ∧ rest.head? = some ':')) :
    newPathAux (c :: rest) = c :: newPathAux rest := by
  show newPathFuel (c :: rest).length (c :: rest) = _
  simp only [List.length_cons, newPathFuel, if_neg h]
  rfl

theorem np_empty_run (rest : List Char) (h : (rest.takeWhile isAlnum).isEmpty) :
    newPathAux ('/' :: ':' :: rest) = '/' :: ':' :: newPathAux rest := by
  show newPathFuel ('/' :: ':' :: rest).length _ = _
  simp only [List.length_cons, newPathFuel, List.head?_cons, and_self, if_true, Option.some.injEq]
  simp only [List.tail_cons, if_pos h]
  rw [newPathFuel_sufficient (rest.length + 1) rest.length rest (by omega) (le_refl _)]
  rfl

theorem np_run (rest : List Char) (h : ¬ (rest.takeWhile isAlnum).isEmpty) :
    newPathAux ('/' :: ':' :: rest) =
      '/' :: '{' :: (rest.takeWhile isAlnum ++ '}' :: newPathAux (rest.dropWhile isAlnum)) := by
  show newPathFuel ('/' :: ':' :: rest).length _ = _
  simp only [List.length_cons, newPathFuel, List.head?_cons, and_self, if_true, Option.some.injEq]
  simp only [List.tail_cons, if_neg h]
  have hd := dropWhile_length_le isAlnum rest
  rw [newPathFuel_sufficient (rest.length + 1) (rest.dropWhile isAlnum).length
    (rest.dropWhile isAlnum) (by omega) (le_refl _)]
  rfl



/-- Whether `l` begins with a match of `/:([A-Za-z0-9]+)`. -/
def matchHead : List Char → Bool
  | c :: c2 :: c3 :: _ => c = '/' ∧ c2 = ':' ∧ isAlnum c3
  | _ => false

/-- Whether any suffix of `l` begins with a match. -/
def hasMatch : List Char → Bool
  | [] => false
  | c :: rest => matchHead (c :: rest) || hasMatch rest

theorem np_head? (l : List Char) : (newPathAux l).head? = l.head? := by
  cases l with
  | nil => rfl
  | cons c rest =>
      by_cases hm : c = '/' ∧ rest.head? = some ':'
      · obtain ⟨hc, hh⟩ := hm
        cases rest with
        | nil => simp at hh
        | cons c2 r2 =>
            simp only [List.head?_cons, Option.some.injEq] at hh
            subst hc; subst hh
            by_cases he : (r2.takeWhile isAlnum).isEmpty
            · rw [np_empty_run r2 he]; rfl
            · rw [np_run r2 he]; rfl
      · rw [np_no c rest hm]; rfl

theorem hasMatch_append_no_slash (a b : List Char) (h : '/' ∉ a) :
    hasMatch (a ++ b) = hasMatch b := by
  induction a with
  | nil => rfl
  | cons x xs ih =>
      have hx : x ≠ '/' := fun hh => h (hh ▸ List.mem_cons_self x xs)
      have hxs : '/' ∉ xs := fun hh => h (List.mem_cons_of_mem x hh)
      have hmh : matchHead (x :: (xs ++ b)) = false := by
        cases hxx : xs ++ b with
        | nil => rfl
        | cons y ys =>
            cases ys with
            | nil => rfl
            | cons z zs => simp [matchHead, hx]
      calc hasMatch ((x :: xs) ++ b) = (matchHead (x :: (xs ++ b)) || hasMatch (xs ++ b)) := rfl
        _ = (false || hasMatch (xs ++ b)) := by rw [hmh]
        _ = hasMatch (xs ++ b) := by simp
        _ = hasMatch b := ih hxs

theorem np_fixed : ∀ l : List Char, hasMatch l = false → newPathAux l = l := by
  have H : ∀ n (l : List Char), l.length ≤ n → hasMatch l = false → newPathAux l = l := by
    intro n
    induction n with
    | zero =>
        intro l hl _
        have : l = [] := List.length_eq_zero.mp (Nat.le_zero.mp hl)
        subst this; rfl
    | succ m ih =>
        intro l hl hnm
        cases l with
        | nil => rfl
        | cons c rest =>
            by_cases hm : c = '/' ∧ rest.head? = some ':'
            · obtain ⟨hc, hh⟩ := hm
              cases rest with
              | nil => simp at hh
              | cons c2 r2 =>
                  simp only [List.head?_cons, Option.some.injEq] at hh
                  subst hc; subst hh
                  -- no match anywhere, so r2 cannot start with an alnum char
                  have he : (r2.takeWhile isAlnum).isEmpty := by
                    cases r2 with
                    | nil => rfl
                    | cons c3 r3 =>
                        simp only [hasMatch, matchHead, Bool.or_eq_false_iff] at hnm
                        have : isAlnum c3 = false := by
                          have := hnm.1
                          simp at this
                          exact this
                        simp [List.takeWhile, this]
                  rw [np_empty_run r2 he]
                  simp only [List.length_cons] at hl
                  simp only [hasMatch, Bool.or_eq_false_iff] at hnm
                  rw [ih r2 (by omega) hnm.2.2]
            · rw [np_no c rest hm]
              simp only [List.length_cons] at hl
              simp only [hasMatch, Bool.or_eq_false_iff] at hnm
              rw [ih rest (by omega) hnm.2]
  intro l
  exact H l.length l (le_refl _)



theorem hasMatch_cons (c : Char) (l : List Char) :
    hasMatch (c :: l) = (matchHead (c :: l) || hasMatch l) := rfl

theorem matchHead_of_ne_slash (c : Char) (l : List Char) (h : c ≠ '/') :
    matchHead (c :: l) = false := by
  cases l with
  | nil => rfl
  | cons y ys =>
      cases ys with
      | nil => rfl
      | cons z zs => simp [matchHead, h]

theorem matchHead_of_second_ne_colon (c c2 : Char) (l : List Char) (h : c2 ≠ ':') :
    matchHead (c :: c2 :: l) = false := by
  cases l with
  | nil => rfl
  | cons z zs => simp [matchHead, h]

theorem matchHead_of_third_not_alnum (c c2 c3 : Char) (l : List Char) (h : isAlnum c3 = false) :
    matchHead (c :: c2 :: c3 :: l) = false := by
  simp [matchHead, h]

theorem hasMatch_np : ∀ l : List Char, hasMatch (newPathAux l) = false := by
  have H : ∀ n (l : List Char), l.length ≤ n → hasMatch (newPathAux l) = false := by
    intro n
    induction n with
    | zero =>
        intro l hl
        have : l = [] := List.length_eq_zero.mp (Nat.le_zero.mp hl)
        subst this; rfl
    | succ m ih =>
        intro l hl
        cases l with
        | nil => rfl
        | cons c rest =>
            simp only [List.length_cons] at hl
            by_cases hm : c = '/' ∧ rest.head? = some ':'
            · obtain ⟨hc, hh⟩ := hm
              cases rest with
              | nil => simp at hh
              | cons c2 r2 =>
                  simp only [List.head?_cons, Option.some.injEq] at hh
                  subst hc; subst hh
                  simp only [List.length_cons] at hl
                  by_cases he : (r2.takeWhile isAlnum).isEmpty
                  · rw [np_empty_run r2 he]
                    have hnph := np_head? r2
                    have hih := ih r2 (by omega)
                    cases hnp : newPathAux r2 with
                    | nil => rfl
                    | cons d ds =>
                        rw [hnp] at hnph hih
                        have hd : r2.head? = some d := by rw [← hnph]; rfl
                        -- r2 starts with d and d is not alnum (run empty)
                        have hA : isAlnum d = false := by
                          cases r2 with
                          | nil => simp at hd
                          | cons e es =>
                              simp only [List.head?_cons, Option.some.injEq] at hd
                              cases hae : isAlnum e with
                              | true =>
                                  rw [List.takeWhile_cons, hae] at he
                                  simp at he
                              | false => rw [← hd]; exact hae
                        rw [hasMatch_cons, matchHead_of_third_not_alnum _ _ _ _ hA]
                        rw [hasMatch_cons, matchHead_of_ne_slash ':' _ (by decide)]
                        rw [hasMatch_cons] at hih
                        simp only [Bool.false_or]
                        exact hih
                  · rw [np_run r2 he]
                    have key :
                        ('/' :: '{' :: (r2.takeWhile isAlnum ++ '}' :: newPathAux (r2.dropWhile isAlnum)))
                          = ('/' :: '{' :: r2.takeWhile isAlnum ++ ['}'])
                              ++ newPathAux (r2.dropWhile isAlnum) := by
                      simp only [List.cons_append, List.append_assoc, List.singleton_append,
                        List.nil_append]
                    rw [key]
                    -- peel the leading '/'
                    rw [show ('/' :: '{' :: r2.takeWhile isAlnum ++ ['}'])
                          ++ newPathAux (r2.dropWhile isAlnum)
                        = '/' :: (('{' :: r2.takeWhile isAlnum ++ ['}'])
                          ++ newPathAux (r2.dropWhile isAlnum)) from rfl]
                    rw [hasMatch_cons]
                    have hmh : matchHead ('/' :: (('{' :: r2.takeWhile isAlnum ++ ['}'])
                        ++ newPathAux (r2.dropWhile isAlnum))) = false := by
                      rw [show (('{' :: r2.takeWhile isAlnum ++ ['}'])
                            ++ newPathAux (r2.dropWhile isAlnum))
                          = '{' :: (r2.takeWhile isAlnum ++ ['}']
                            ++ newPathAux (r2.dropWhile isAlnum)) from by simp]
                      exact matchHead_of_second_ne_colon _ _ _ (by decide)
                    rw [hmh]
                    have hdrop := dropWhile_length_le isAlnum r2
                    have hrest := ih (r2.dropWhile isAlnum) (by omega)
                    rw [hasMatch_append_no_slash _ _ (by
                      intro hmem
                      rcases List.mem_cons.mp hmem with h3 | h4
                      · exact absurd h3 (by decide)
                      · rcases List.mem_append.mp h4 with h5 | h6
                        · have := List.mem_takeWhile_imp h5
                          simp [isAlnum] at this
                        · simp at h6)]
                    simp [hrest]
            · rw [np_no c rest hm]
              rw [hasMatch_cons]
              have hih := ih rest (by omega)
              have hmh : matchHead (c :: newPathAux rest) = false := by
                by_cases hc : c = '/'
                · subst hc
                  have hcol : rest.head? ≠ some ':' := by
                    intro hcc; exact hm ⟨rfl, hcc⟩
                  have hnph := np_head? rest
                  cases hnp : newPathAux rest with
                  | nil => rfl
                  | cons d ds =>
                      rw [hnp] at hnph
                      have hd : rest.head? = some d := by rw [← hnph]; rfl
                      have hdc : d ≠ ':' := by
                        intro hdd; subst hdd; exact hcol hd
                      exact matchHead_of_second_ne_colon _ _ _ hdc
                · exact matchHead_of_ne_slash c _ hc
              rw [hmh]
              simp [hih]
  intro l
  exact H l.length l (le_refl _)

theorem np_idem (l : List Char) : newPathAux (newPathAux l) = newPathAux l :=
  np_fixed _ (hasMatch_np l)

/-- C9: path template translation maps every `:name` segment to `{name}`
(`NewPath "/a/:x/b/:y" = "/a/{x}/b/{y}"`), leaves `{name}` segments
unchanged, and is idempotent: `NewPath (NewPath s) = NewPath s` for every
string. -/
theorem c9_path_translation :
    NewPath "/a/:x/b/:y" = "/a/{x}/b/{y}" ∧
    NewPath "/users/:id/pets" = "/users/{id}/pets" ∧
    NewPath "/users/{id}" = "/users/{id}" ∧
    ∀ s : String, NewPath (NewPath s) = NewPath s := by
  refine ⟨by decide, by decide, by decide, ?_⟩
  intro s
  show String.mk (newPathAux (String.mk (newPathAux s.toList)).toList) = _
  rw [show (String.mk (newPathAux s.toList)).toList = newPathAux s.toList from rfl]
  rw [np_idem]
  rfl


/-- C3 fails on the code: `NewField` dereferences one pointer level before
any rendering rule runs, so for a struct field of type `*bool` versus
`bool` the two documents are byte-identical and contain no `nullable`
marker at all — contradicting the claim's "added nullable marker".  (The
repository's own test "treats pointer fields … the same as value fields"
shows the same output.) -/
theorem c3_counterexample :
    (Fix.ptrReg Fix.valStructT).bind BuildYAML = (Fix.ptrReg Fix.ptrStructT).bind BuildYAML ∧
    ((Fix.ptrReg Fix.ptrStructT).bind BuildYAML).isOk = true ∧
    strContains (((Fix.ptrReg Fix.ptrStructT).bind BuildYAML).toOption.getD "") "nullable"
      = false := by
  refine ⟨by decide, by decide, by decide⟩

/-- C3 amended: pointers are fully transparent with no nullable marker.
`NewField` on `*X` equals `NewField` on `X` (for `X` itself neither a
pointer nor an interface), so a `*X` field and an `X` field with the same
tags yield the same descriptor and byte-identical output; the builtin
rule's `nullable: true` branch fires only for a descriptor whose
dereferenced kind is still `ptr`, i.e. only for double-pointer fields such
as `**int` (final conjunct). -/
theorem c3_amended_pointer_transparency :
    (∀ (X : GoType) (sf : Option StructFieldMeta), X.kind ≠ .ptr →
      NewField (.ptr X) sf = NewField X sf) ∧
    (∀ (name : String) (tags : List GoTag) (X : GoType),
      X.kind ≠ .ptr → X.kind ≠ .iface →
      fieldOfDecl ⟨name, false, tags, .ptr X⟩ = fieldOfDecl ⟨name, false, tags, X⟩) ∧
    (∀ (ty fmt : String) (f : Field), f.kind ≠ .ptr →
      assocFind? (SimpleDataTyper ty fmt f ObjectFields.empty) "nullable" = none) ∧
    (∀ (ty fmt : String) (f : Field), f.kind = .ptr →
      assocFind? (SimpleDataTyper ty fmt f ObjectFields.empty) "nullable" = some "true") ∧
    (Fix.dblPtrReg.bind BuildYAML).isOk = true ∧
    strContains (((Fix.dblPtrReg.bind BuildYAML).toOption.getD "")) "nullable: true"
      = true := by
  refine ⟨?_, ?_, ?_, ?_, by decide, by decide⟩
  · intro X sf hX
    have h1 : derefOnce (.ptr X) true = X := by
      simp [derefOnce, GoType.kind, GoType.elem]
    have h2 : derefOnce X true = X := by
      simp [derefOnce, hX]
    simp [NewField, newField, h1, h2]
  · intro name tags X hX hIf
    have hp : (GoType.ptr X).kind = .ptr := rfl
    have h1 : derefOnce (.ptr X) true = X := by
      simp [derefOnce, GoType.kind, GoType.elem]
    have h2 : derefOnce X true = X := by
      simp [derefOnce, hX]
    simp only [fieldOfDecl, hp]
    rw [if_neg (by decide), if_neg (by simpa using hIf)]
    simp [NewField, newField, h1, h2, metaOf]
  · intro ty fmt f hk
    by_cases hf : fmt ≠ ""
    · simp [SimpleDataTyper, if_neg hk, if_pos hf,
        ObjectFields.set, ObjectFields.empty, assocSet, assocFind?]
    · simp [SimpleDataTyper, if_neg hk, if_neg hf,
        ObjectFields.set, ObjectFields.empty, assocSet, assocFind?]
  · intro ty fmt f hk
    by_cases hf : fmt ≠ ""
    · simp [SimpleDataTyper, if_pos hk, if_pos hf,
        ObjectFields.set, ObjectFields.empty, assocSet, assocFind?]
    · simp [SimpleDataTyper, if_pos hk, if_neg hf,
        ObjectFields.set, ObjectFields.empty, assocSet, assocFind?]

/-- Witness for C3 amended at concrete inputs: `*bool` and `bool` give the
same descriptor, and a non-pointer-kind descriptor gets no nullable key. -/
theorem c3_amended_witness :
    NewField (.ptr Builtin.boolT) none = NewField Builtin.boolT none ∧
    fieldOfDecl ⟨"F", false, [⟨"json", "f"⟩], .ptr Builtin.boolT⟩ =
      fieldOfDecl ⟨"F", false, [⟨"json", "f"⟩], Builtin.boolT⟩ ∧
    assocFind? (SimpleDataTyper "boolean" "" (NewField Builtin.boolT none) ObjectFields.empty)
      "nullable" = none :=
  ⟨c3_amended_pointer_transparency.1 Builtin.boolT none (by decide),
   c3_amended_pointer_transparency.2.1 "F" [⟨"json", "f"⟩] Builtin.boolT (by decide) (by decide),
   c3_amended_pointer_transparency.2.2.1 "boolean" "" (NewField Builtin.boolT none) (by decide)⟩

/-- C6 fails on the code: with `Custom` mapped to a boolean rule by
`DefineDataType` and reachable from a response, the emitted components
section DOES contain a `Custom:` schema — `visitStructs` substitutes the
registered descriptor, which is still the struct type itself, and records
it.  (The fields of type `Custom` do render as `type: boolean` with no
`$ref`, as the amended theorem shows.) -/
theorem c6_counterexample :
    (Fix.customReg.bind BuildYAML).isOk = true ∧
    ((Fix.customReg.bind WriteYAML).toOption.getD []).contains (line 2 "Custom:") = true := by
  refine ⟨by decide, by decide⟩

/-- C6 amended: after `DefineDataType` maps a struct type `T` (with at
least one declared field), every field of type `T` renders via the rule's
scalar attributes with no `$ref` link — `writeRefSchema` falls through to
`writeDataType` — but `T` itself still appears as a walked schema in the
components section whenever it is reachable from a response, because the
component collector's data-type substitution leaves a struct-kind
descriptor in place.  Concretely: the request-body and response fields of
type `Custom` render as `type: boolean`, no `$ref` to `Custom` exists
anywhere, and yet the `Custom:` component is emitted. -/
theorem c6_amended_mapped_struct (sa : Sashay) (fuel indent : Nat) (f : Field)
    (hk : f.kind = .strukt) (hn : f.type.numFields ≠ 0)
    (hm : sa.isMappedToDataType f = true) :
    writeRefSchema sa (fuel + 1) indent f = writeDataType sa indent f ∧
    strContains ((Fix.customReg.bind BuildYAML).toOption.getD "")
      ("pcustom:" ++ String.mk ['\n'] ++ "                  type: boolean") = true ∧
    strContains ((Fix.customReg.bind BuildYAML).toOption.getD "")
      ("custom:" ++ String.mk ['\n'] ++ "          type: boolean") = true ∧
    strContains ((Fix.customReg.bind BuildYAML).toOption.getD "") "schemas/Custom" = false ∧
    ((Fix.customReg.bind WriteYAML).toOption.getD []).contains (line 2 "Custom:") = true := by
  refine ⟨?_, by decide, by decide, by decide, by decide⟩
  have hks : (f.kind = GoKind.slice) = False := by
    simp [hk]
  simp only [writeRefSchema, hks, if_false, hk, if_pos rfl, hm]
  rw [if_neg hn]
  simp

/-- Witness for C6 amended at a concrete input: the `Custom` descriptor in
the registry that maps it. -/
theorem c6_amended_witness :
    writeRefSchema Fix.customSa 6 3 (NewField Fix.customT) =
      writeDataType Fix.customSa 3 (NewField Fix.customT) :=
  (c6_amended_mapped_struct Fix.customSa 5 3 (NewField Fix.customT)
    (by decide) (by decide) (by decide)).1

/-- C8 fails on the code for request bodies: `writePaths` writes the
document-wide content type for every request body unconditionally, and a
string-kind `Params` value makes `writeParams` call `NumField` on a
non-struct type, a reflect panic — so no string-kind request body is ever
emitted at all, let alone with `text/plain`. -/
theorem c8_counterexample :
    Fix.stringParamsReg.bind BuildYAML = .error "reflect: NumField of non-struct type" ∧
    (Fix.stringParamsReg.bind BuildYAML).isOk = false := by
  refine ⟨by decide, by decide⟩

/-- C8 amended: the `text/plain` override applies to response bodies only.
For every successfully emitted non-nil response, the content-type line
(the fourth line of the response block) is `text/plain:` exactly when the
body is string-kind and the document default otherwise; a string-kind
`Params` value panics during parameter enumeration (counterexample), and
request bodies always carry the document default content type (the
concrete registry's requestBody uses `application/json:`). -/
theorem c8_amended_content_type :
    (∀ (sa : Sashay) (fuel : Nat) (resp : Response) (ls : List String),
      resp.field.isNil = false → responseLines sa fuel resp = .ok ls →
      ls.get? 3 = some (if resp.field.kind = .string_ then line 6 "text/plain:"
                        else line 6 (sa.defaultContentType ++ ":"))) ∧
    strContains ((Fix.plainReg.bind BuildYAML).toOption.getD "") "text/plain:" = true ∧
    strContains ((Fix.plainReg.bind BuildYAML).toOption.getD "") "application/json:" = false ∧
    ((Fix.customReg.bind WriteYAML).toOption.getD []).contains (line 5 "application/json:")
      = true := by
  refine ⟨?_, by decide, by decide, by decide⟩
  intro sa fuel resp ls h1 h2
  rw [responseLines] at h2
  rw [if_neg (by simp [h1])] at h2
  by_cases hk : resp.field.kind = .string_
  · rw [if_pos hk]
    simp only [hk, if_pos rfl] at h2
    cases hw : writeRefSchema sa fuel 8 resp.field with
    | error e => rw [hw] at h2; simp [Bind.bind, Except.bind] at h2
    | ok s =>
        rw [hw] at h2
        simp only [Bind.bind, Except.bind, Except.ok.injEq] at h2
        subst h2
        rfl
  · rw [if_neg hk]
    rw [if_neg hk] at h2
    cases hw : writeRefSchema sa fuel 8 resp.field with
    | error e => rw [hw] at h2; simp [Bind.bind, Except.bind] at h2
    | ok s =>
        rw [hw] at h2
        simp only [Bind.bind, Except.bind, Except.ok.injEq] at h2
        subst h2
        rfl

/-- Witness for C8 amended at a concrete input: a string-kind 200 response
in a fresh registry gets the `text/plain:` content line. -/
theorem c8_amended_witness :
    ((responseLines (Sashay.new "t" "d" "v") 5
        (NewResponse 200 "desc" (some Builtin.stringT))).toOption.getD []).get? 3 =
      some (line 6 "text/plain:") := by
  have h := c8_amended_content_type.1 (Sashay.new "t" "d" "v") 5
    (NewResponse 200 "desc" (some Builtin.stringT))
    ((responseLines (Sashay.new "t" "d" "v") 5
        (NewResponse 200 "desc" (some Builtin.stringT))).toOption.getD [])
    (by decide) (by decide)
  rw [h]
  decide

theorem isExportedName_eq_specStartsUpper (s : String)
    (h : s.toList.all (· ≠ '.') = true) :
    isExportedName s = specStartsUpper s := by
  unfold isExportedName specStartsUpper
  have hmem : '.' ∉ s.toList := by
    intro hx
    rw [List.all_eq_true] at h
    have := h '.' hx
    simp at this
  have hsplit : s.toList.splitOn '.' = [s.toList] := by
    unfold List.splitOn
    apply List.splitOnP_eq_single
    intro x hx
    simp only [beq_iff_eq]
    intro hxx
    subst hxx
    exact hmem hx
  rw [hsplit]
  cases s.toList with
  | nil => rfl
  | cons c cs =>
      show (decide (65 ≤ c.toNat ∧ c.toNat ≤ 90)) = decide ('A' ≤ c ∧ c ≤ 'Z')
      simp only [decide_eq_decide]
      constructor <;> rintro ⟨h1, h2⟩ <;> exact ⟨h1, h2⟩

theorem isExportedField_eq_specVisible (fd : GoFieldDecl GoType)
    (h : fd.fname.toList.all (· ≠ '.') = true) :
    isExportedField fd = specVisible fd := by
  unfold isExportedField specVisible
  by_cases he : fd.fname = ""
  · simp [he, specStartsUpper, String.toList]
  · by_cases ha : fd.anon
    · simp [ha, he]
    · rw [if_neg (by simp [he, ha])]
      rw [isExportedName_eq_specStartsUpper fd.fname h]
      simp [he, ha]



mutual

theorem walker_equiv_at : ∀ (top t : GoType), dotFreeType t = true →
    selfResolving top t = true →
    ∀ out, enumerateInnerAt top t = .ok out → walkerSpec fieldOfDecl t = some out
  | top, .strukt n p fs, h, hs, out, he => by
      have h' : dotFreeType.go fs = true := by
        simpa [dotFreeType] using h
      have hs' : selfResolving.go top fs = true := by
        simpa [selfResolving] using hs
      have he' : enumerateInnerAt.go top fs = .ok out := by
        simpa [enumerateInnerAt] using he
      have := walker_equiv_at_go top fs h' hs' out he'
      simpa [walkerSpec] using this
  | top, .prim n p k, h, hs, out, he => by
      simp [enumerateInnerAt] at he
  | top, .slice n p e, h, hs, out, he => by
      simp [enumerateInnerAt] at he
  | top, .ptr e, h, hs, out, he => by
      simp [enumerateInnerAt] at he

theorem walker_equiv_at_go : ∀ (top : GoType) (fs : List (GoFieldDecl GoType)),
    dotFreeType.go fs = true → selfResolving.go top fs = true →
    ∀ out, enumerateInnerAt.go top fs = .ok out → walkerSpec.go fieldOfDecl fs = some out
  | top, [], _, _, out, he => by
      simp only [enumerateInnerAt.go] at he
      cases he
      rfl
  | top, fd :: rest, h, hs, out, he => by
      have hparts := h
      simp only [dotFreeType.go, Bool.and_eq_true] at hparts
      obtain ⟨⟨h1, h2⟩, h3⟩ := hparts
      simp only [selfResolving.go, Bool.and_eq_true] at hs
      obtain ⟨hs1, hs3⟩ := hs
      have hvis := isExportedField_eq_specVisible fd h1
      simp only [enumerateInnerAt.go] at he
      simp only [walkerSpec.go]
      by_cases hex : isExportedField fd = true
      · by_cases han : fd.anon = true
        · -- anonymous: splice the embedded walk
          rw [if_neg (by simp [hex])] at he
          rw [if_pos han] at he
          rw [if_neg (by simp [hex]), if_pos han] at hs1
          cases hw : enumerateInnerAt top fd.fty with
          | error e => rw [hw] at he; simp [Bind.bind, Except.bind] at he
          | ok inner =>
              rw [hw] at he
              cases ht : enumerateInnerAt.go top rest with
              | error e => rw [ht] at he; simp [Bind.bind, Except.bind] at he
              | ok tail =>
                  rw [ht] at he
                  simp only [Bind.bind, Except.bind, pure, Except.pure, Except.ok.injEq] at he
                  subst he
                  rw [walker_equiv_at_go top rest h3 hs3 tail ht]
                  simp only [Bind.bind, Option.bind]
                  rw [if_neg (by simp [← hvis, hex])]
                  rw [if_pos han]
                  rw [walker_equiv_at top fd.fty h2 hs1 inner hw]
                  rfl
        · -- plain exported field: the promoted lookup is the declaration
          rw [if_neg (by simp [hex])] at he
          rw [if_neg han] at he
          rw [if_neg (by simp [hex]), if_neg han] at hs1
          have hsl : fieldByName top fd.fname = some (fd.fty, false) :=
            of_decide_eq_true hs1
          rw [hsl] at he
          have he2 : (do
              let head ← (Except.ok [fieldOfLookup fd fd.fty] : Except String (List Field))
              let tail ← enumerateInnerAt.go top rest
              pure (head ++ tail)) = .ok out := he
          cases ht : enumerateInnerAt.go top rest with
          | error e => rw [ht] at he2; simp [Bind.bind, Except.bind, pure, Except.pure] at he2
          | ok tail =>
              rw [ht] at he2
              simp only [Bind.bind, Except.bind, pure, Except.pure, Except.ok.injEq] at he2
              subst he2
              rw [walker_equiv_at_go top rest h3 hs3 tail ht]
              simp only [Bind.bind, Option.bind]
              rw [if_neg (by simp [← hvis, hex])]
              rw [if_neg han]
              rfl
      · -- invisible field: excluded entirely
        rw [if_pos (by simp [hex])] at he
        cases ht : enumerateInnerAt.go top rest with
        | error e => rw [ht] at he; simp [Bind.bind, Except.bind, pure, Except.pure] at he
        | ok tail =>
            rw [ht] at he
            simp only [Bind.bind, Except.bind, pure, Except.pure, Except.ok.injEq] at he
            subst he
            rw [walker_equiv_at_go top rest h3 hs3 tail ht]
            simp only [Bind.bind, Option.bind]
            rw [if_pos (by simp [← hvis, hex])]
            rfl

end


/-- Counterexample for C4 as claimed: the walker does NOT always splice an
anonymous field's own visible fields.  Reading embedded fields goes through
`FieldByName` on the parent value, so with `Outer` shadowing the embedded
`F string` by its own `F int` the walker emits the OUTER int type for the
embedded declaration (the spec walker splices the embedded string field),
and with two embeddings both declaring `F` the promoted name is ambiguous
and the walk panics.  Both types have dot-free names, so they sit inside
the original claim's domain. -/
theorem c4_counterexample :
    enumerateInner Fix.shadowOuterT =
      .ok [NewField Builtin.intT (some ⟨"F", false, [⟨"json", "f"⟩]⟩),
           NewField Builtin.intT (some ⟨"F", false, [⟨"json", "f2"⟩]⟩)] ∧
    walkerSpec fieldOfDecl Fix.shadowOuterT =
      some [NewField Builtin.stringT (some ⟨"F", false, [⟨"json", "f"⟩]⟩),
            NewField Builtin.intT (some ⟨"F", false, [⟨"json", "f2"⟩]⟩)] ∧
    (enumerateInner Fix.shadowOuterT).toOption ≠ walkerSpec fieldOfDecl Fix.shadowOuterT ∧
    enumerateInner Fix.ambOuterT =
      .error "reflect: call of reflect.Value.CanInterface on zero Value" ∧
    dotFreeType Fix.shadowOuterT = true ∧
    dotFreeType Fix.ambOuterT = true :=
  ⟨by decide, by decide, by decide, by decide, by decide, by decide⟩

/-- C4 (amended): the source visibility test agrees with the spec's
visibility rule on dot-free names; and on every struct type whose promoted
field names resolve unambiguously to their own declarations (`selfResolving`:
no outer field shadows an embedded one, no two embeddings share a name, no
pointer embedding), the walker returns fields in declaration order,
excludes entirely every invisible plain field, and splices every
anonymous/embedded field's own visible fields into the parent's sequence at
the embedding's position with no extra nesting, agreeing with the spec
walker.  Without that proviso the claim fails: a shadowed embedded name
takes the outer field's type and an ambiguous one panics (see the
counterexample). -/
theorem c4_amended_walker_equivalence :
    (∀ fd : GoFieldDecl GoType, fd.fname.toList.all (· ≠ '.') = true →
      isExportedField fd = specVisible fd) ∧
    (∀ t : GoType, dotFreeType t = true → selfResolving t t = true →
      ∀ out : List Field, enumerateInner t = .ok out → walkerSpec fieldOfDecl t = some out) :=
  ⟨isExportedField_eq_specVisible,
   fun t h hs out he => walker_equiv_at t t h hs out he⟩

/-- Witness for the amended C4 at a concrete input: the Demo struct with an
unexported field, an exported field, and an embedded struct, whose promoted
names all resolve to their own declarations. -/
theorem c4_amended_witness :
    walkerSpec fieldOfDecl Fix.demoT = some ((enumerateInner Fix.demoT).toOption.getD []) ∧
    isExportedField ⟨"simpleUnexported", false, [], Builtin.stringT⟩ =
      specVisible ⟨"simpleUnexported", false, [], Builtin.stringT⟩ :=
  ⟨c4_amended_walker_equivalence.2 Fix.demoT (by decide) (by decide)
      ((enumerateInner Fix.demoT).toOption.getD []) (by decide),
   c4_amended_walker_equivalence.1 ⟨"simpleUnexported", false, [], Builtin.stringT⟩ (by decide)⟩

/-- C10: `NewOperationID` is not total over path strings: for a path that
reduces to an empty segment after cleaning — `"/"`, the empty path, or an
interior double separator as in `"/a//b"` — it slices an empty piece and
panics, so `Sashay.Add` panics for such operations instead of returning;
a normal path is fine (`/users/:id` gives `getUsersId`). -/
theorem c10_operation_id_panics :
    NewOperationID "GET" "/" = .error "runtime error: slice bounds out of range" ∧
    NewOperationID "GET" "" = .error "runtime error: slice bounds out of range" ∧
    NewOperationID "GET" "/a//b" = .error "runtime error: slice bounds out of range" ∧
    ((Sashay.new "t" "d" "v").add (Fix.mkOp "GET" "/" "" none .nil .nil)).map (fun _ => "returned") =
      .error "runtime error: slice bounds out of range" ∧
    ((Sashay.new "t" "d" "v").add (Fix.mkOp "GET" "/a//b" "" none .nil .nil)).map (fun _ => "returned") =
      .error "runtime error: slice bounds out of range" ∧
    NewOperationID "GET" "/users/:id" = .ok "getUsersId" := by
  refine ⟨by decide, by decide, by decide, ?_, ?_, by decide⟩ <;> rfl

/-- C7: whenever scalar attributes are needed for a descriptor and the
registry lookup fails (no exact-type rule, no kind fallback), generation
halts with the fatal `writeDataType` error, whose message names the
offending kind and the offending type and tells the caller to add a custom
data type mapper; the final conjunct shows the error propagating out of a
whole-document build for a field with no applicable rule. -/
theorem c7_unsupported_type_error (sa : Sashay) (indent : Nat) (f : Field)
    (h : sa.dataTypeDefFor f = none) :
    writeDataType sa indent f = .error (unsupportedMsg f) ∧
    f.kind.str.toList <:+: (unsupportedMsg f).toList ∧
    f.type.str.toList <:+: (unsupportedMsg f).toList ∧
    "add a custom data type mapper".toList <:+: (unsupportedMsg f).toList ∧
    Fix.triplePtrReg.bind BuildYAML = .error (unsupportedMsg Fix.triplePtrField) := by
  refine ⟨?_, ?_, ?_, ?_, by rfl⟩
  · simp [writeDataType, h]
  · exact ⟨"No dataTypeDef defined for kind ".toList,
      (", type " ++ f.type.str ++
        ". You should either change the type, or add a custom data type mapper. " ++
        "See Representing Custom Types at " ++
        "https://godoc.org/github.com/cloudability/sashay#hdr-Sashay_Detail__Representing_Custom_Types " ++
        "for more information.").toList,
      by simp [unsupportedMsg, String.toList]⟩
  · exact ⟨("No dataTypeDef defined for kind " ++ f.kind.str ++ ", type ").toList,
      (". You should either change the type, or add a custom data type mapper. " ++
        "See Representing Custom Types at " ++
        "https://godoc.org/github.com/cloudability/sashay#hdr-Sashay_Detail__Representing_Custom_Types " ++
        "for more information.").toList,
      by simp [unsupportedMsg, String.toList]⟩
  · exact ⟨("No dataTypeDef defined for kind " ++ f.kind.str ++ ", type " ++ f.type.str ++
        ". You should either change the type, or ").toList,
      (". See Representing Custom Types at " ++
        "https://godoc.org/github.com/cloudability/sashay#hdr-Sashay_Detail__Representing_Custom_Types " ++
        "for more information.").toList,
      by simp [unsupportedMsg, String.toList]⟩

/-- Witness for C7 at a concrete input: a field of type `***Custom` (its
dereferenced kind is still `ptr`) has no rule in a fresh registry. -/
theorem c7_witness :
    writeDataType (Sashay.new "t" "d" "v") 2 Fix.triplePtrField =
      .error (unsupportedMsg Fix.triplePtrField) :=
  (c7_unsupported_type_error (Sashay.new "t" "d" "v") 2 Fix.triplePtrField rfl).1

/-- C5: response defaulting.  When the success value is not an explicit
`Response`/`Responses`, the first response defaults to 204 with no body for
a nil success value, 201 for POST with a payload, and 200 otherwise; when
the error value is not an explicit `Response`/`Responses`, the last
response is the `default` code carrying the error type, with no body when
the error value is nil. -/
theorem getLast?_append_singleton {α : Type} (l : List α) (a : α) :
    (l ++ [a]).getLast? = some a := by
  exact List.getLast?_concat l

theorem c5_response_defaulting (op : Operation) :
    (op.returnOk = .nil →
      op.responses.head? = some (NewResponse 204 "The operation completed successfully." none)) ∧
    (∀ t, op.returnOk = .shape t → NewMethod op.method = "post" →
      op.responses.head? = some (NewResponse 201 "ok response" (some t))) ∧
    (∀ t, op.returnOk = .shape t → NewMethod op.method ≠ "post" →
      op.responses.head? = some (NewResponse 200 "ok response" (some t))) ∧
    (op.returnErr = .nil →
      op.responses.getLast? = some (NewResponse (-1) "error response" none)) ∧
    (∀ t, op.returnErr = .shape t →
      op.responses.getLast? = some (NewResponse (-1) "error response" (some t))) ∧
    (NewResponse (-1) "error response" none).code = "default" ∧
    (NewResponse (-1) "error response" none).field.isNil = true ∧
    (NewResponse 204 "The operation completed successfully." none).field.isNil = true := by
  obtain ⟨m, p, s, d, pr, rok, rerr, tg⟩ := op
  refine ⟨?_, ?_, ?_, ?_, ?_, by decide, by decide, by decide⟩
  · rintro rfl
    rfl
  · rintro t rfl hm
    simp only [Operation.responses, hm, if_true]
    rfl
  · rintro t rfl hm
    simp only [Operation.responses, if_neg hm]
    rfl
  · rintro rfl
    cases rok <;>
      simp only [Operation.responses] <;>
      exact getLast?_append_singleton _ _
  · rintro t rfl
    cases rok <;>
      simp only [Operation.responses] <;>
      exact getLast?_append_singleton _ _

/-- Witness for C5 at concrete operations: a POST with a payload defaults
to 201, and a nil error becomes the bodiless `default` response. -/
theorem c5_witness :
    (Fix.mkOp "POST" "/p" "" none (.shape Fix.petT) .nil).responses.head? =
      some (NewResponse 201 "ok response" (some Fix.petT)) ∧
    (Fix.mkOp "POST" "/p" "" none (.shape Fix.petT) .nil).responses.getLast? =
      some (NewResponse (-1) "error response" none) :=
  ⟨(c5_response_defaulting (Fix.mkOp "POST" "/p" "" none (.shape Fix.petT) .nil)).2.1
      Fix.petT rfl (by decide),
   (c5_response_defaulting (Fix.mkOp "POST" "/p" "" none (.shape Fix.petT) .nil)).2.2.2.1 rfl⟩

/-! ## C2: the components collector pipeline -/

theorem exceptMapM_congr {A B : Type} (f g : A → Except String B) :
    ∀ l : List A, (∀ a ∈ l, f a = g a) → l.mapM f = l.mapM g := by
  intro l
  induction l with
  | nil => intro _; rfl
  | cons a rest ih =>
      intro h
      simp only [List.mapM_cons]
      rw [h a (List.mem_cons_self a rest), ih (fun b hb => h b (List.mem_cons_of_mem a hb))]

/-- `visitStructs` reads the registry only through its data-type tables. -/
theorem visitStructs_congr (sa1 sa2 : Sashay)
    (ht : sa2.dataTypesForTypes = sa1.dataTypesForTypes)
    (hk : sa2.dataTypesForKinds = sa1.dataTypesForKinds) :
    ∀ fuel f, visitStructs sa2 fuel f = visitStructs sa1 fuel f := by
  have hd : ∀ g, sa2.dataTypeDefFor g = sa1.dataTypeDefFor g := by
    intro g; simp [Sashay.dataTypeDefFor, ht, hk]
  intro fuel
  induction fuel with
  | zero => intro f; rfl
  | succ n ih =>
      intro f
      simp only [visitStructs, hd]
      by_cases hgk :
          ((match sa1.dataTypeDefFor (if f.kind = GoKind.slice then ZeroSliceValueField f.type else f)
              with
            | some d => d.field
            | none => if f.kind = GoKind.slice then ZeroSliceValueField f.type else f).kind ≠ GoKind.strukt)
      · rw [if_pos hgk, if_pos hgk]
      · rw [if_neg hgk, if_neg hgk]
        cases henum :
            enumerateStructFields
              (match sa1.dataTypeDefFor
                  (if f.kind = GoKind.slice then ZeroSliceValueField f.type else f) with
               | some d => d.field
               | none => if f.kind = GoKind.slice then ZeroSliceValueField f.type else f) with
        | error e => simp only [Bind.bind, Except.bind, henum]
        | ok fs =>
            simp only [Bind.bind, Except.bind, henum,
              exceptMapM_congr (visitStructs sa2 n) (visitStructs sa1 n) fs (fun a _ => ih a)]

theorem visitResponses_congr (sa1 sa2 : Sashay)
    (ht : sa2.dataTypesForTypes = sa1.dataTypesForTypes)
    (hk : sa2.dataTypesForKinds = sa1.dataTypesForKinds) (fuel : Nat) :
    ∀ rs, visitResponses sa2 fuel rs = visitResponses sa1 fuel rs := by
  intro rs
  induction rs with
  | nil => rfl
  | cons r rest ih =>
      simp only [visitResponses, visitStructs_congr sa1 sa2 ht hk, ih]

theorem visitOperations_congr (sa1 sa2 : Sashay)
    (ht : sa2.dataTypesForTypes = sa1.dataTypesForTypes)
    (hk : sa2.dataTypesForKinds = sa1.dataTypesForKinds) (fuel : Nat) :
    ∀ ops2 ops1 : List InternalOperation,
      ops2.map (fun o => o.responses) = ops1.map (fun o => o.responses) →
      visitOperations sa2 fuel ops2 = visitOperations sa1 fuel ops1 := by
  intro ops2
  induction ops2 with
  | nil =>
      intro ops1 h
      cases ops1 with
      | nil => rfl
      | cons _ _ => simp at h
  | cons op rest ih =>
      intro ops1 h
      cases ops1 with
      | nil => simp at h
      | cons op1 rest1 =>
          simp only [List.map_cons, List.cons.injEq] at h
          simp only [visitOperations, h.1, visitResponses_congr sa1 sa2 ht hk fuel,
            ih rest1 h.2]

theorem sortedFieldsForSchema_congr (sa1 sa2 : Sashay)
    (ht : sa2.dataTypesForTypes = sa1.dataTypesForTypes)
    (hk : sa2.dataTypesForKinds = sa1.dataTypesForKinds)
    (hops : sa2.operations.map (fun o => o.responses) = sa1.operations.map (fun o => o.responses))
    (fuel : Nat) :
    sortedFieldsForSchema sa2 fuel = sortedFieldsForSchema sa1 fuel := by
  simp only [sortedFieldsForSchema, allResponseFields,
    visitOperations_congr sa1 sa2 ht hk fuel sa2.operations sa1.operations hops]

theorem charsLt_asymm : ∀ a b : List Char, charsLt a b = true → charsLt b a = false
  | [], [] => by simp [charsLt]
  | [], _ :: _ => by simp [charsLt]
  | _ :: _, [] => by simp [charsLt]
  | a :: as, b :: bs => by
      simp only [charsLt]
      by_cases h1 : a.toNat < b.toNat
      · intro _
        rw [if_neg (by omega), if_pos h1]
      · by_cases h2 : b.toNat < a.toNat
        · simp [h1, h2]
        · rw [if_neg h1, if_neg h2, if_neg h2, if_neg h1]
          exact charsLt_asymm as bs

theorem charsLt_trans : ∀ a b c : List Char, charsLt a b = true → charsLt b c = true →
    charsLt a c = true
  | _, [], [] => by intro _ h2; simp [charsLt] at h2
  | _ :: _, [], _ => by intro h1 _; simp [charsLt] at h1
  | [], [], _ :: _ => by intro h1 _; simp [charsLt] at h1
  | [], _ :: _, [] => by intro _ h2; simp [charsLt] at h2
  | [], _ :: _, _ :: _ => by intro _ _; simp [charsLt]
  | _ :: _, _ :: _, [] => by intro _ h2; simp [charsLt] at h2
  | a :: as, b :: bs, c :: cs => by
      simp only [charsLt]
      intro hab hbc
      by_cases h1 : b.toNat < a.toNat
      · rw [if_neg (by omega), if_pos h1] at hab; simp at hab
      by_cases h2 : c.toNat < b.toNat
      · rw [if_neg (by omega), if_pos h2] at hbc; simp at hbc
      by_cases h3 : a.toNat < c.toNat
      · rw [if_pos h3]
      · rw [if_neg (by omega), if_neg h1] at hab
        rw [if_neg (by omega), if_neg h2] at hbc
        rw [if_neg h3, if_neg (by omega)]
        exact charsLt_trans as bs cs hab hbc

theorem insertBy_perm {A : Type} (r : A → A → Bool) (x : A) :
    ∀ l : List A, List.Perm (insertBy r x l) (x :: l)
  | [] => List.Perm.refl _
  | y :: ys => by
      simp only [insertBy]
      by_cases hxy : r x y = true
      · rw [if_pos hxy]
      · rw [if_neg hxy]
        exact (List.Perm.cons y (insertBy_perm r x ys)).trans (List.Perm.swap x y ys)

theorem sortBy_perm {A : Type} (r : A → A → Bool) :
    ∀ l : List A, List.Perm (sortBy r l) l
  | [] => List.Perm.refl _
  | x :: xs =>
      (insertBy_perm r x (sortBy r xs)).trans (List.Perm.cons x (sortBy_perm r xs))

/-- Insertion with a strict, asymmetric, transitive comparator preserves
sortedness in the reflexive order `fun u v => r v u = false`. -/
theorem insertBy_sorted {A : Type} (r : A → A → Bool)
    (hasym : ∀ a b, r a b = true → r b a = false)
    (htrans : ∀ a b c, r a b = true → r b c = true → r a c = true)
    (x : A) : ∀ l : List A, l.Pairwise (fun u v => r v u = false) →
      (insertBy r x l).Pairwise (fun u v => r v u = false)
  | [], _ => by simp [insertBy]
  | y :: ys, hp => by
      simp only [insertBy]
      have hp' := List.pairwise_cons.mp hp
      by_cases hxy : r x y = true
      · rw [if_pos hxy]
        refine List.Pairwise.cons ?_ hp
        intro z hz
        cases List.mem_cons.mp hz with
        | inl h => subst h; exact hasym _ _ hxy
        | inr h =>
            have hzy := hp'.1 z h
            cases hzx : r z x with
            | false => rfl
            | true => rw [htrans z x y hzx hxy] at hzy; simp at hzy
      · rw [if_neg hxy]
        refine List.Pairwise.cons ?_ (insertBy_sorted r hasym htrans x ys hp'.2)
        intro z hz
        have hz' : z = x ∨ z ∈ ys := by
          have := (insertBy_perm r x ys).mem_iff.mp hz
          simpa using this
        cases hz' with
        | inl h => subst h; simpa using hxy
        | inr h => exact hp'.1 z h

theorem sortBy_sorted {A : Type} (r : A → A → Bool)
    (hasym : ∀ a b, r a b = true → r b a = false)
    (htrans : ∀ a b c, r a b = true → r b c = true → r a c = true) :
    ∀ l : List A, (sortBy r l).Pairwise (fun u v => r v u = false)
  | [] => by simp [sortBy]
  | x :: xs => by
      simp only [sortBy]
      exact insertBy_sorted r hasym htrans x _ (sortBy_sorted r hasym htrans xs)

theorem fieldsLess_asymm : ∀ a b : Field, fieldsLess a b = true → fieldsLess b a = false :=
  fun _ _ h => charsLt_asymm _ _ h

theorem fieldsLess_trans : ∀ a b c : Field, fieldsLess a b = true → fieldsLess b c = true →
    fieldsLess a c = true :=
  fun _ _ _ h1 h2 => charsLt_trans _ _ _ h1 h2

/-- Type-membership through `Fields.Distinct`: a type survives iff it occurs
in the input and is not already seen. -/
theorem distinctFields_mem :
    ∀ (l : List Field) (seen : List GoType) (t : GoType),
      (t ∈ (distinctFields l seen).map (fun f => f.type)) ↔
        (t ∈ l.map (fun f => f.type) ∧ t ∉ seen)
  | [], seen, t => by simp [distinctFields]
  | f :: rest, seen, t => by
      simp only [distinctFields]
      by_cases hf : f.type ∈ seen
      · rw [if_pos hf, distinctFields_mem rest seen t]
        simp only [List.map_cons, List.mem_cons]
        constructor
        · rintro ⟨h1, h2⟩
          exact ⟨Or.inr h1, h2⟩
        · rintro ⟨h1, h2⟩
          cases h1 with
          | inl h => subst h; exact absurd hf h2
          | inr h => exact ⟨h, h2⟩
      · rw [if_neg hf]
        simp only [List.map_cons, List.mem_cons]
        constructor
        · rintro (h | h)
          · subst h; exact ⟨Or.inl rfl, hf⟩
          · have := (distinctFields_mem rest (f.type :: seen) t).mp h
            exact ⟨Or.inr this.1, fun hs => this.2 (List.mem_cons_of_mem _ hs)⟩
        · rintro ⟨h1, h2⟩
          by_cases ht : t = f.type
          · exact Or.inl ht
          · refine Or.inr ((distinctFields_mem rest (f.type :: seen) t).mpr ⟨?_, ?_⟩)
            · cases h1 with
              | inl h => exact absurd h ht
              | inr h => exact h
            · intro hs
              cases List.mem_cons.mp hs with
              | inl h => exact ht h
              | inr h => exact h2 h
  termination_by l => l.length

/-- `Fields.Distinct` emits each type at most once. -/
theorem distinctFields_nodup :
    ∀ (l : List Field) (seen : List GoType),
      ((distinctFields l seen).map (fun f => f.type)).Nodup
  | [], _ => by simp [distinctFields]
  | f :: rest, seen => by
      simp only [distinctFields]
      by_cases hf : f.type ∈ seen
      · rw [if_pos hf]
        exact distinctFields_nodup rest seen
      · rw [if_neg hf]
        simp only [List.map_cons, List.nodup_cons]
        refine ⟨?_, distinctFields_nodup rest (f.type :: seen)⟩
        intro hmem
        exact ((distinctFields_mem rest (f.type :: seen) f.type).mp hmem).2
          (List.mem_cons_self _ _)
  termination_by l => l.length

/-- Type-membership through `Fields.RemoveAnonymousTypes`. -/
theorem removeAnonymousTypes_mem (l : List Field) (t : GoType) :
    (t ∈ (removeAnonymousTypes l).map (fun f => f.type)) ↔
      (t ∈ l.map (fun f => f.type) ∧ t.pkgPath ≠ "") := by
  simp only [removeAnonymousTypes, List.mem_map, List.mem_filter]
  constructor
  · rintro ⟨f, ⟨hfl, hp⟩, hft⟩
    subst hft
    exact ⟨⟨f, hfl, rfl⟩, by simpa using hp⟩
  · rintro ⟨⟨f, hfl, hft⟩, hp⟩
    subst hft
    exact ⟨f, ⟨hfl, by simpa using hp⟩, rfl⟩


/-- C2: the emitted components/schemas list (`sortedFieldsForSchema`)
contains each distinct type exactly once (deduplicated by type identity),
sorted alphabetically by bare type name; unnamed/anonymous types (empty
package path) are dropped; a type appears iff it is collected from some
registered operation's responses and is named; and the list depends only on
the data-type tables and the operations' response lists, so parameter-only
and request-body-only struct types never contribute, even when structurally
identical to a response type. -/
theorem c2_components_schemas
    (sa : Sashay) (fuel : Nat) (allF out : List Field)
    (hall : allResponseFields sa fuel = .ok allF)
    (hout : sortedFieldsForSchema sa fuel = .ok out) :
    (out.map (fun f => f.type)).Nodup ∧
    out.Pairwise (fun a b => strLt b.type.name a.type.name = false) ∧
    (∀ f ∈ out, f.type.pkgPath ≠ "") ∧
    (∀ t : GoType,
      (t ∈ out.map (fun f => f.type)) ↔
        (t ∈ (flattenSliceTypes (compactFields allF)).map (fun f => f.type) ∧
          t.pkgPath ≠ "")) ∧
    (∀ sa2 : Sashay, sa2.dataTypesForTypes = sa.dataTypesForTypes →
      sa2.dataTypesForKinds = sa.dataTypesForKinds →
      sa2.operations.map (fun o => o.responses) = sa.operations.map (fun o => o.responses) →
      sortedFieldsForSchema sa2 fuel = .ok out) := by
  have hco := hout
  simp only [sortedFieldsForSchema, hall, Bind.bind, Except.bind, Except.ok.injEq] at hout
  subst hout
  have hperm :
      List.Perm
        (sortBy fieldsLess
          (removeAnonymousTypes (distinctFields (flattenSliceTypes (compactFields allF)) [])))
        (removeAnonymousTypes (distinctFields (flattenSliceTypes (compactFields allF)) [])) :=
    sortBy_perm _ _
  have hpm := hperm.map (fun f => f.type)
  have hsub :
      ((removeAnonymousTypes (distinctFields (flattenSliceTypes (compactFields allF)) [])).map
          (fun f => f.type)).Sublist
        ((distinctFields (flattenSliceTypes (compactFields allF)) []).map (fun f => f.type)) :=
    (List.filter_sublist _).map _
  refine ⟨?_, ?_, ?_, ?_, ?_⟩
  · exact hpm.nodup_iff.mpr (hsub.nodup (distinctFields_nodup _ []))
  · exact List.Pairwise.imp (fun h => h)
      (sortBy_sorted fieldsLess fieldsLess_asymm fieldsLess_trans _)
  · intro f hf
    have hfL := hperm.mem_iff.mp hf
    have h2 : f ∈ distinctFields (flattenSliceTypes (compactFields allF)) [] ∧
        ¬ f.type.pkgPath = "" := by simpa [removeAnonymousTypes] using hfL
    exact h2.2
  · intro t
    rw [hpm.mem_iff, removeAnonymousTypes_mem, distinctFields_mem]
    simp
  · intro sa2 ht hk hops
    rw [sortedFieldsForSchema_congr sa sa2 ht hk hops fuel]
    exact hco

/-- Witness for C2 at the twin registry: the structurally identical
parameter-only `Twin` type is absent from the components list, while the
response `Twin` type is present. -/
theorem c2_witness :
    ((Fix.twinOut.map (fun f => f.type)).Nodup ∧
      Fix.twinOut.Pairwise (fun a b => strLt b.type.name a.type.name = false) ∧
      (∀ f ∈ Fix.twinOut, f.type.pkgPath ≠ "") ∧
      (∀ t : GoType,
        (t ∈ Fix.twinOut.map (fun f => f.type)) ↔
          (t ∈ (flattenSliceTypes (compactFields Fix.twinAllF)).map (fun f => f.type) ∧
            t.pkgPath ≠ "")) ∧
      (∀ sa2 : Sashay, sa2.dataTypesForTypes = Fix.twinSa.dataTypesForTypes →
        sa2.dataTypesForKinds = Fix.twinSa.dataTypesForKinds →
        sa2.operations.map (fun o => o.responses) =
          Fix.twinSa.operations.map (fun o => o.responses) →
        sortedFieldsForSchema sa2 100 = .ok Fix.twinOut)) ∧
    Fix.paramTwinT ∉ Fix.twinOut.map (fun f => f.type) ∧
    Fix.respTwinT ∈ Fix.twinOut.map (fun f => f.type) :=
  ⟨c2_components_schemas Fix.twinSa 100 Fix.twinAllF Fix.twinOut (by decide) (by decide),
   by decide, by decide⟩

/-! ## C1: operation ordering and order independence -/

theorem charsLt_irrefl : ∀ a : List Char, charsLt a a = false
  | [] => rfl
  | c :: cs => by
      simp only [charsLt]
      rw [if_neg (by omega), if_neg (by omega)]
      exact charsLt_irrefl cs

theorem charsLt_connex : ∀ a b : List Char, a ≠ b → charsLt a b = true ∨ charsLt b a = true
  | [], [], h => absurd rfl h
  | [], _ :: _, _ => Or.inl (by simp [charsLt])
  | _ :: _, [], _ => Or.inr (by simp [charsLt])
  | a :: as, b :: bs, h => by
      by_cases h1 : a.toNat < b.toNat
      · exact Or.inl (by simp only [charsLt]; rw [if_pos h1])
      · by_cases h2 : b.toNat < a.toNat
        · exact Or.inr (by simp only [charsLt]; rw [if_pos h2])
        · have hab : a = b := by
            cases a; cases b
            simp only [Char.toNat] at h1 h2
            congr 1
            exact UInt32.toNat.inj (by omega)
          subst hab
          have hne : as ≠ bs := fun hh => h (by rw [hh])
          cases charsLt_connex as bs hne with
          | inl hl =>
              exact Or.inl (by simp only [charsLt]; rw [if_neg h1, if_neg h2]; exact hl)
          | inr hr =>
              exact Or.inr (by simp only [charsLt]; rw [if_neg h1, if_neg h2]; exact hr)

theorem strLt_connex (a b : String) (h : a ≠ b) : strLt a b = true ∨ strLt b a = true := by
  refine charsLt_connex a.toList b.toList (fun hh => h ?_)
  cases a; cases b
  simp only [String.toList] at hh
  rw [hh]

theorem opLess_asymm : ∀ a b : InternalOperation, opLess a b = true → opLess b a = true → False := by
  intro a b h1 h2
  simp only [opLess] at h1 h2
  by_cases hp : a.path = b.path
  · rw [if_pos hp] at h1
    rw [if_pos hp.symm] at h2
    simp only [decide_eq_true_eq] at h1 h2
    omega
  · rw [if_neg hp] at h1
    rw [if_neg (fun hh => hp hh.symm)] at h2
    rw [strLt, charsLt_asymm _ _ h1] at h2
    exact Bool.false_ne_true h2

theorem opLess_trans : ∀ a b c : InternalOperation, opLess a b = true → opLess b c = true →
    opLess a c = true := by
  intro a b c h1 h2
  simp only [opLess] at h1 h2 ⊢
  by_cases hab : a.path = b.path
  · rw [if_pos hab] at h1
    by_cases hbc : b.path = c.path
    · rw [if_pos hbc] at h2
      rw [if_pos (hab.trans hbc)]
      simp only [decide_eq_true_eq] at h1 h2 ⊢
      omega
    · rw [if_neg hbc] at h2
      rw [if_neg (fun hh => hbc (hab.symm.trans hh)), hab]
      exact h2
  · rw [if_neg hab] at h1
    by_cases hbc : b.path = c.path
    · rw [if_neg (fun hh => hab (hh.trans hbc.symm)), ← hbc]
      exact h1
    · rw [if_neg hbc] at h2
      have hac : charsLt a.path.toList c.path.toList = true := charsLt_trans _ _ _ h1 h2
      have hne : a.path ≠ c.path := by
        intro hh
        rw [hh, charsLt_irrefl] at hac
        exact Bool.false_ne_true hac
      rw [if_neg hne]
      exact hac

theorem opLess_connex (a b : InternalOperation)
    (h : (a.path, methodWeight a.method) ≠ (b.path, methodWeight b.method)) :
    opLess a b = true ∨ opLess b a = true := by
  simp only [opLess]
  by_cases hp : a.path = b.path
  · have hw : methodWeight a.method ≠ methodWeight b.method := by
      intro hh
      exact h (by rw [hp, hh])
    rw [if_pos hp, if_pos hp.symm]
    simp only [decide_eq_true_eq]
    omega
  · rw [if_neg hp, if_neg (fun hh => hp hh.symm)]
    exact strLt_connex a.path b.path hp

/-- Two strictly sorted permutations of each other are equal, for any
asymmetric comparator. -/
theorem sorted_perm_eq {A : Type} (r : A → A → Bool)
    (hasym : ∀ a b, r a b = true → r b a = true → False) :
    ∀ l1 l2 : List A, List.Perm l1 l2 → l1.Pairwise (fun a b => r a b = true) →
      l2.Pairwise (fun a b => r a b = true) → l1 = l2
  | [], l2, hp, _, _ => hp.nil_eq
  | x :: t1, [], hp, _, _ => by
      have := hp.length_eq
      simp at this
  | x :: t1, y :: t2, hp, hs1, hs2 => by
      have hxy : x = y := by
        by_contra hne
        have hx2 : x ∈ y :: t2 := hp.mem_iff.mp (List.mem_cons_self x t1)
        have hy1 : y ∈ x :: t1 := hp.symm.mem_iff.mp (List.mem_cons_self y t2)
        have hxt2 : x ∈ t2 := by
          cases List.mem_cons.mp hx2 with
          | inl hh => exact absurd hh hne
          | inr hh => exact hh
        have hyt1 : y ∈ t1 := by
          cases List.mem_cons.mp hy1 with
          | inl hh => exact absurd hh.symm hne
          | inr hh => exact hh
        exact hasym x y ((List.pairwise_cons.mp hs1).1 y hyt1)
          ((List.pairwise_cons.mp hs2).1 x hxt2)
      subst hxy
      have ht : t1 = t2 :=
        sorted_perm_eq r hasym t1 t2 hp.cons_inv
          (List.pairwise_cons.mp hs1).2 (List.pairwise_cons.mp hs2).2
      rw [ht]

theorem exceptMapM_cons_ok {A B : Type} (f : A → Except String B) {x : A} {t : List A}
    {r : List B} (h : (x :: t).mapM f = .ok r) :
    ∃ b bs, f x = .ok b ∧ t.mapM f = .ok bs ∧ r = b :: bs := by
  rw [List.mapM_cons] at h
  cases hfx : f x with
  | error e => rw [hfx] at h; simp [Bind.bind, Except.bind] at h
  | ok b =>
      rw [hfx] at h
      cases hmt : t.mapM f with
      | error e => rw [hmt] at h; simp [Bind.bind, Except.bind] at h
      | ok bs =>
          rw [hmt] at h
          simp only [Bind.bind, Except.bind, pure, Except.pure, Except.ok.injEq] at h
          exact ⟨b, bs, rfl, rfl, h.symm⟩

theorem exceptMapM_nil_ok {A B : Type} (f : A → Except String B) {r : List B}
    (h : ([] : List A).mapM f = .ok r) : r = [] := by
  rw [List.mapM_nil] at h
  simp only [pure, Except.pure, Except.ok.injEq] at h
  exact h.symm

theorem exceptMapM_ok_forall {A B : Type} (f : A → Except String B) :
    ∀ (l : List A) (r : List B), l.mapM f = .ok r → ∀ a ∈ l, ∃ b, f a = .ok b := by
  intro l
  induction l with
  | nil => intro r _ a ha; simp at ha
  | cons x t ih =>
      intro r h a ha
      obtain ⟨b, bs, hfx, hmt, _⟩ := exceptMapM_cons_ok f h
      cases List.mem_cons.mp ha with
      | inl hh => subst hh; exact ⟨b, hfx⟩
      | inr hh => exact ih bs hmt a hh

theorem exceptMapM_ok_of_forall {A B : Type} (f : A → Except String B) :
    ∀ l : List A, (∀ a ∈ l, ∃ b, f a = .ok b) → ∃ r, l.mapM f = .ok r := by
  intro l
  induction l with
  | nil => exact fun _ => ⟨[], by rw [List.mapM_nil]; rfl⟩
  | cons x t ih =>
      intro h
      obtain ⟨b, hb⟩ := h x (List.mem_cons_self x t)
      obtain ⟨r, hr⟩ := ih (fun a ha => h a (List.mem_cons_of_mem x ha))
      refine ⟨b :: r, ?_⟩
      rw [List.mapM_cons, hb, hr]
      rfl

theorem exceptMapM_perm {A B : Type} (f : A → Except String B) :
    ∀ {l1 l2 : List A}, List.Perm l1 l2 → ∀ {r1 r2 : List B},
      l1.mapM f = .ok r1 → l2.mapM f = .ok r2 → List.Perm r1 r2 := by
  intro l1 l2 hp
  induction hp with
  | nil =>
      intro r1 r2 h1 h2
      rw [exceptMapM_nil_ok f h1, exceptMapM_nil_ok f h2]
  | cons x hp' ih =>
      intro r1 r2 h1 h2
      obtain ⟨b1, bs1, hf1, hm1, he1⟩ := exceptMapM_cons_ok f h1
      obtain ⟨b2, bs2, hf2, hm2, he2⟩ := exceptMapM_cons_ok f h2
      subst he1; subst he2
      rw [hf1, Except.ok.injEq] at hf2
      subst hf2
      exact List.Perm.cons b1 (ih hm1 hm2)
  | swap x y t =>
      intro r1 r2 h1 h2
      obtain ⟨by1, rest1, hfy, hm1, he1⟩ := exceptMapM_cons_ok f h1
      obtain ⟨bx1, bs1, hfx, hmt1, het1⟩ := exceptMapM_cons_ok f hm1
      obtain ⟨bx2, rest2, hfx2, hm2, he2⟩ := exceptMapM_cons_ok f h2
      obtain ⟨by2, bs2, hfy2, hmt2, het2⟩ := exceptMapM_cons_ok f hm2
      subst he1; subst het1; subst he2; subst het2
      rw [hfy, Except.ok.injEq] at hfy2
      rw [hfx, Except.ok.injEq] at hfx2
      rw [hmt1, Except.ok.injEq] at hmt2
      subst hfy2; subst hfx2; subst hmt2
      exact List.Perm.swap bx1 by1 bs1
  | trans hp1 hp2 ih1 ih2 =>
      intro r1 r2 h1 h2
      have hmid : ∃ rm, _ := exceptMapM_ok_of_forall f _
        (fun a ha => exceptMapM_ok_forall f _ _ h1 a (hp1.mem_iff.mpr ha))
      obtain ⟨rm, hm⟩ := hmid
      exact (ih1 h1 hm).trans (ih2 hm h2)

theorem visitOperations_cons_ok {sa : Sashay} {fuel : Nat} {op : InternalOperation}
    {rest : List InternalOperation} {r : List Field}
    (h : visitOperations sa fuel (op :: rest) = .ok r) :
    ∃ h1 t1, visitResponses sa fuel op.responses = .ok h1 ∧
      visitOperations sa fuel rest = .ok t1 ∧ r = h1 ++ t1 := by
  simp only [visitOperations] at h
  cases hr : visitResponses sa fuel op.responses with
  | error e => rw [hr] at h; simp [Bind.bind, Except.bind] at h
  | ok h1 =>
      rw [hr] at h
      cases ht : visitOperations sa fuel rest with
      | error e => rw [ht] at h; simp [Bind.bind, Except.bind] at h
      | ok t1 =>
          rw [ht] at h
          simp only [Bind.bind, Except.bind, Except.ok.injEq] at h
          exact ⟨h1, t1, rfl, rfl, h.symm⟩

theorem visitOperations_nil_ok {sa : Sashay} {fuel : Nat} {r : List Field}
    (h : visitOperations sa fuel [] = .ok r) : r = [] := by
  simp only [visitOperations, Except.ok.injEq] at h
  exact h.symm

theorem visitOperations_ok_forall {sa : Sashay} {fuel : Nat} :
    ∀ (ops : List InternalOperation) (r : List Field),
      visitOperations sa fuel ops = .ok r →
      ∀ op ∈ ops, ∃ b, visitResponses sa fuel op.responses = .ok b := by
  intro ops
  induction ops with
  | nil => intro r _ op hop; simp at hop
  | cons x t ih =>
      intro r h op hop
      obtain ⟨h1, t1, hx, ht, _⟩ := visitOperations_cons_ok h
      cases List.mem_cons.mp hop with
      | inl hh => subst hh; exact ⟨h1, hx⟩
      | inr hh => exact ih t1 ht op hh

theorem visitOperations_ok_of_forall {sa : Sashay} {fuel : Nat} :
    ∀ ops : List InternalOperation,
      (∀ op ∈ ops, ∃ b, visitResponses sa fuel op.responses = .ok b) →
      ∃ r, visitOperations sa fuel ops = .ok r := by
  intro ops
  induction ops with
  | nil => exact fun _ => ⟨[], rfl⟩
  | cons x t ih =>
      intro h
      obtain ⟨b, hb⟩ := h x (List.mem_cons_self x t)
      obtain ⟨r, hr⟩ := ih (fun a ha => h a (List.mem_cons_of_mem x ha))
      refine ⟨b ++ r, ?_⟩
      simp only [visitOperations, hb, hr, Bind.bind, Except.bind]

theorem visitOperations_perm {sa : Sashay} {fuel : Nat} :
    ∀ {l1 l2 : List InternalOperation}, List.Perm l1 l2 → ∀ {r1 r2 : List Field},
      visitOperations sa fuel l1 = .ok r1 → visitOperations sa fuel l2 = .ok r2 →
      List.Perm r1 r2 := by
  intro l1 l2 hp
  induction hp with
  | nil =>
      intro r1 r2 h1 h2
      rw [visitOperations_nil_ok h1, visitOperations_nil_ok h2]
  | cons x hp' ih =>
      intro r1 r2 h1 h2
      obtain ⟨b1, t1, hx1, hm1, he1⟩ := visitOperations_cons_ok h1
      obtain ⟨b2, t2, hx2, hm2, he2⟩ := visitOperations_cons_ok h2
      subst he1; subst he2
      rw [hx1, Except.ok.injEq] at hx2
      subst hx2
      exact (ih hm1 hm2).append_left b1
  | swap x y t =>
      intro r1 r2 h1 h2
      obtain ⟨ry1, rest1, hfy, hm1, he1⟩ := visitOperations_cons_ok h1
      obtain ⟨rx1, bs1, hfx, hmt1, het1⟩ := visitOperations_cons_ok hm1
      obtain ⟨rx2, rest2, hfx2, hm2, he2⟩ := visitOperations_cons_ok h2
      obtain ⟨ry2, bs2, hfy2, hmt2, het2⟩ := visitOperations_cons_ok hm2
      subst he1; subst het1; subst he2; subst het2
      rw [hfy, Except.ok.injEq] at hfy2
      rw [hfx, Except.ok.injEq] at hfx2
      rw [hmt1, Except.ok.injEq] at hmt2
      subst hfy2; subst hfx2; subst hmt2
      have hmain : List.Perm ((ry1 ++ rx1) ++ bs1) ((rx1 ++ ry1) ++ bs1) :=
        List.Perm.append_right bs1 List.perm_append_comm
      rw [← List.append_assoc, ← List.append_assoc]
      exact hmain
  | trans hp1 hp2 ih1 ih2 =>
      intro r1 r2 h1 h2
      obtain ⟨rm, hm⟩ := visitOperations_ok_of_forall _
        (fun a ha => visitOperations_ok_forall _ _ h1 a (hp1.mem_iff.mpr ha))
      exact (ih1 h1 hm).trans (ih2 hm h2)

/-- `addAll` succeeds exactly when every operation internalizes, and then
appends the internalized operations in order. -/
theorem addAll_eq (base : Sashay) :
    ∀ (ops : List Operation) (sa : Sashay), base.addAll ops = .ok sa →
      ∃ iops, ops.mapM Operation.toInternalOperation = .ok iops ∧
        sa = { base with operations := base.operations ++ iops } := by
  intro ops
  induction ops generalizing base with
  | nil =>
      intro sa h
      simp only [Sashay.addAll, Except.ok.injEq] at h
      refine ⟨[], by rw [List.mapM_nil]; rfl, ?_⟩
      rw [← h]
      simp
  | cons op rest ih =>
      intro sa h
      simp only [Sashay.addAll, Sashay.add] at h
      cases hiop : op.toInternalOperation with
      | error e => rw [hiop] at h; simp [Bind.bind, Except.bind] at h
      | ok iop =>
          rw [hiop] at h
          simp only [Bind.bind, Except.bind] at h
          obtain ⟨iops, hm, hsa⟩ :=
            ih { base with operations := base.operations ++ [iop] } sa h
          refine ⟨iop :: iops, ?_, ?_⟩
          · rw [List.mapM_cons, hiop, hm]
            rfl
          · rw [hsa]
            simp

/-- Projections and emitter stages that never read `operations` are
unchanged by replacing it. -/
theorem writeDataType_upd (sa : Sashay) (x : List InternalOperation) (i : Nat) (f : Field) :
    writeDataType { sa with operations := x } i f = writeDataType sa i f := rfl

theorem isMappedToDataType_upd (sa : Sashay) (x : List InternalOperation) (f : Field) :
    Sashay.isMappedToDataType { sa with operations := x } f = sa.isMappedToDataType f := rfl

theorem defaultContentType_upd (sa : Sashay) (x : List InternalOperation) :
    ({ sa with operations := x } : Sashay).defaultContentType = sa.defaultContentType := rfl

theorem operations_upd (sa : Sashay) (x : List InternalOperation) :
    ({ sa with operations := x } : Sashay).operations = x := rfl

theorem writeRefSchema_upd (sa : Sashay) (x : List InternalOperation) :
    ∀ (fuel i : Nat) (f : Field),
      writeRefSchema { sa with operations := x } fuel i f = writeRefSchema sa fuel i f := by
  intro fuel
  induction fuel with
  | zero => intro i f; rfl
  | succ n ih =>
      intro i f
      simp only [writeRefSchema, ih, isMappedToDataType_upd, writeDataType_upd]

theorem writeStructSchema_upd (sa : Sashay) (x : List InternalOperation) :
    ∀ (recurse : Field → Bool) (fuel i : Nat) (f : Field),
      writeStructSchema { sa with operations := x } recurse fuel i f =
        writeStructSchema sa recurse fuel i f := by
  intro recurse fuel
  induction fuel with
  | zero => intro i f; rfl
  | succ n ih =>
      intro i f
      simp only [writeStructSchema, ih, writeRefSchema_upd, writeDataType_upd]

theorem writeParamFields_upd (sa : Sashay) (x : List InternalOperation) (fuel i : Nat) :
    ∀ fs : List Field,
      writeParamFields { sa with operations := x } fuel i fs = writeParamFields sa fuel i fs := by
  intro fs
  induction fs with
  | nil => rfl
  | cons f rest ih =>
      simp only [writeParamFields, ih, writeRefSchema_upd]

theorem writeParams_upd (sa : Sashay) (x : List InternalOperation) (fuel i : Nat) (f : Field) :
    writeParams { sa with operations := x } fuel i f = writeParams sa fuel i f := by
  simp only [writeParams, writeParamFields_upd]

theorem responseLines_upd (sa : Sashay) (x : List InternalOperation) (fuel : Nat)
    (resp : Response) :
    responseLines { sa with operations := x } fuel resp = responseLines sa fuel resp := by
  simp only [responseLines, writeRefSchema_upd, defaultContentType_upd]

theorem responsesLines_upd (sa : Sashay) (x : List InternalOperation) (fuel : Nat) :
    ∀ rs : List Response,
      responsesLines { sa with operations := x } fuel rs = responsesLines sa fuel rs := by
  intro rs
  induction rs with
  | nil => rfl
  | cons r rest ih =>
      simp only [responsesLines, responseLines_upd, ih]

theorem operationLines_upd (sa : Sashay) (x : List InternalOperation) (fuel : Nat)
    (op : InternalOperation) :
    operationLines { sa with operations := x } fuel op = operationLines sa fuel op := by
  simp only [operationLines, writeParams_upd, writeStructSchema_upd, responsesLines_upd,
    defaultContentType_upd, isMappedToDataType_upd]

theorem writePathsLoop_upd (sa : Sashay) (x : List InternalOperation) (fuel : Nat) :
    ∀ (lp lm : String) (ops : List InternalOperation),
      writePathsLoop { sa with operations := x } fuel lp lm ops =
        writePathsLoop sa fuel lp lm ops := by
  intro lp lm ops
  induction ops generalizing lp lm with
  | nil => rfl
  | cons op rest ih =>
      simp only [writePathsLoop, operationLines_upd, ih]

theorem writeSchemasList_upd (sa : Sashay) (x : List InternalOperation) (fuel : Nat) :
    ∀ fs : List Field,
      writeSchemasList { sa with operations := x } fuel fs = writeSchemasList sa fuel fs := by
  intro fs
  induction fs with
  | nil => rfl
  | cons tv rest ih =>
      simp only [writeSchemasList, writeStructSchema_upd, ih]

theorem writeInfo_upd (sa : Sashay) (x : List InternalOperation) :
    writeInfo { sa with operations := x } = writeInfo sa := rfl

theorem writeTagsDoc_upd (sa : Sashay) (x : List InternalOperation) :
    writeTagsDoc { sa with operations := x } = writeTagsDoc sa := rfl

theorem writeServersDoc_upd (sa : Sashay) (x : List InternalOperation) :
    writeServersDoc { sa with operations := x } = writeServersDoc sa := rfl

theorem writeSecuritySchemas_upd (sa : Sashay) (x : List InternalOperation) :
    writeSecuritySchemas { sa with operations := x } = writeSecuritySchemas sa := rfl

theorem writeSecurityScopes_upd (sa : Sashay) (x : List InternalOperation) :
    writeSecurityScopes { sa with operations := x } = writeSecurityScopes sa := rfl

theorem securities_upd (sa : Sashay) (x : List InternalOperation) :
    ({ sa with operations := x } : Sashay).securities = sa.securities := rfl

theorem dataTypesForTypes_upd (sa : Sashay) (x : List InternalOperation) :
    ({ sa with operations := x } : Sashay).dataTypesForTypes = sa.dataTypesForTypes := rfl

theorem dataTypesForKinds_upd (sa : Sashay) (x : List InternalOperation) :
    ({ sa with operations := x } : Sashay).dataTypesForKinds = sa.dataTypesForKinds := rfl

theorem sortedOperations_upd (sa : Sashay) (x : List InternalOperation) :
    sortedOperations { sa with operations := x } = sortBy opLess x := rfl

/-- `writeStructSchema` reads its field argument only through its type. -/
theorem writeStructSchema_type_congr (sa : Sashay) (recurse : Field → Bool) :
    ∀ (fuel i : Nat) {f1 f2 : Field}, f2.type = f1.type →
      writeStructSchema sa recurse fuel i f2 = writeStructSchema sa recurse fuel i f1 := by
  intro fuel i f1 f2 h
  cases fuel with
  | zero => rfl
  | succ n =>
      simp only [writeStructSchema, enumerateStructFields]
      rw [h]

theorem writeSchemasList_types_congr (sa : Sashay) (fuel : Nat) :
    ∀ l2 l1 : List Field, l2.map (fun f => f.type) = l1.map (fun f => f.type) →
      writeSchemasList sa fuel l2 = writeSchemasList sa fuel l1 := by
  intro l2
  induction l2 with
  | nil =>
      intro l1 h
      cases l1 with
      | nil => rfl
      | cons _ _ => simp at h
  | cons tv2 rest2 ih =>
      intro l1 h
      cases l1 with
      | nil => simp at h
      | cons tv1 rest1 =>
          simp only [List.map_cons, List.cons.injEq] at h
          simp only [writeSchemasList]
          rw [writeStructSchema_type_congr sa shouldRecurseStructField fuel 3 h.1,
            ih rest1 h.2, h.1]

/-- The type list each collector-pipeline suffix produces, with its
properties shared between the two C1 runs. -/
theorem pipelineM_nodup (FL : List Field) :
    ((sortBy fieldsLess (removeAnonymousTypes (distinctFields FL []))).map
      (fun f => f.type)).Nodup := by
  refine (((sortBy_perm fieldsLess _).map _).nodup_iff).mpr ?_
  exact ((List.filter_sublist _).map _).nodup (distinctFields_nodup FL [])

theorem pipelineM_mem (FL : List Field) (t : GoType) :
    (t ∈ (sortBy fieldsLess (removeAnonymousTypes (distinctFields FL []))).map
      (fun f => f.type)) ↔
    (t ∈ FL.map (fun f => f.type) ∧ t.pkgPath ≠ "") := by
  rw [((sortBy_perm fieldsLess _).map _).mem_iff, removeAnonymousTypes_mem,
    distinctFields_mem]
  simp

theorem pipelineM_sorted (FL : List Field) :
    ((sortBy fieldsLess (removeAnonymousTypes (distinctFields FL []))).map
      (fun f => f.type)).Pairwise (fun t u => strLt u.name t.name = false) := by
  refine List.pairwise_map.mpr ?_
  exact List.Pairwise.imp (fun h => h)
    (sortBy_sorted fieldsLess fieldsLess_asymm fieldsLess_trans _)

theorem strLt_name_asymm : ∀ t u : GoType, strLt t.name u.name = true →
    strLt u.name t.name = true → False := by
  intro t u h1 h2
  simp only [strLt] at h1 h2
  rw [charsLt_asymm _ _ h1] at h2
  exact Bool.false_ne_true h2

/-- Both collector runs produce the same alphabetical type list when the
inputs are permutations and the emitted type names are distinct. -/
theorem componentTypes_eq (allF1 allF2 : List Field)
    (hperm : List.Perm allF2 allF1)
    (hnames :
      ((sortBy fieldsLess
          (removeAnonymousTypes
            (distinctFields (flattenSliceTypes (compactFields allF1)) []))).map
        (fun f => f.type.name)).Nodup) :
    (sortBy fieldsLess
        (removeAnonymousTypes
          (distinctFields (flattenSliceTypes (compactFields allF2)) []))).map
      (fun f => f.type) =
    (sortBy fieldsLess
        (removeAnonymousTypes
          (distinctFields (flattenSliceTypes (compactFields allF1)) []))).map
      (fun f => f.type) := by
  have hFL : List.Perm (flattenSliceTypes (compactFields allF2))
      (flattenSliceTypes (compactFields allF1)) := by
    simp only [flattenSliceTypes, compactFields]
    exact (hperm.filter _).map _
  have hM : List.Perm
      ((sortBy fieldsLess
          (removeAnonymousTypes
            (distinctFields (flattenSliceTypes (compactFields allF2)) []))).map
        (fun f => f.type))
      ((sortBy fieldsLess
          (removeAnonymousTypes
            (distinctFields (flattenSliceTypes (compactFields allF1)) []))).map
        (fun f => f.type)) := by
    refine (List.perm_ext_iff_of_nodup (pipelineM_nodup _) (pipelineM_nodup _)).mpr ?_
    intro t
    rw [pipelineM_mem, pipelineM_mem, (hFL.map _).mem_iff]
  have hn1 :
      (((sortBy fieldsLess
          (removeAnonymousTypes
            (distinctFields (flattenSliceTypes (compactFields allF1)) []))).map
        (fun f => f.type)).map (fun u => u.name)).Nodup := by
    simpa [List.map_map, Function.comp] using hnames
  have hn2 := (hM.map (fun u : GoType => u.name)).nodup_iff.mpr hn1
  have strictify : ∀ (M : List GoType), (M.map (fun u => u.name)).Nodup →
      M.Pairwise (fun t u => strLt u.name t.name = false) →
      M.Pairwise (fun t u => strLt t.name u.name = true) := by
    intro M hnd hs
    refine (hs.and (List.pairwise_map.mp hnd)).imp ?_
    rintro t u ⟨hns, hne⟩
    cases strLt_connex t.name u.name hne with
    | inl h => exact h
    | inr h => rw [h] at hns; exact absurd hns (by simp)
  exact sorted_perm_eq (fun t u => strLt t.name u.name) strLt_name_asymm _ _ hM
    (strictify _ hn2 (pipelineM_sorted _)) (strictify _ hn1 (pipelineM_sorted _))

/-- Sorting permuted operation lists with pairwise-distinct
(path, method-weight) keys yields the same list. -/
theorem sortedOps_eq (l1 l2 : List InternalOperation) (hperm : List.Perm l2 l1)
    (hkeys : (l1.map (fun o => (o.path, methodWeight o.method))).Nodup) :
    sortBy opLess l2 = sortBy opLess l1 := by
  have hasymB : ∀ a b, opLess a b = true → opLess b a = false := by
    intro a b h
    cases hba : opLess b a with
    | false => rfl
    | true => exact absurd hba (fun hh => opLess_asymm a b h hh)
  have hs2 : List.Perm (sortBy opLess l2) (sortBy opLess l1) :=
    ((sortBy_perm opLess l2).trans hperm).trans (sortBy_perm opLess l1).symm
  have hk1 : ((sortBy opLess l1).map (fun o => (o.path, methodWeight o.method))).Nodup :=
    (((sortBy_perm opLess l1).map _).nodup_iff).mpr hkeys
  have hk2 : ((sortBy opLess l2).map (fun o => (o.path, methodWeight o.method))).Nodup :=
    ((hs2.map _).nodup_iff).mpr hk1
  have strictify : ∀ l : List InternalOperation,
      ((l.map (fun o => (o.path, methodWeight o.method))).Nodup) →
      l.Pairwise (fun u v => opLess v u = false) →
      l.Pairwise (fun a b => opLess a b = true) := by
    intro l hnd hs
    refine (hs.and (List.pairwise_map.mp hnd)).imp ?_
    rintro a b ⟨hns, hne⟩
    cases opLess_connex a b hne with
    | inl h => exact h
    | inr h => rw [h] at hns; exact absurd hns (by simp)
  exact sorted_perm_eq opLess opLess_asymm _ _ hs2
    (strictify _ hk2 (sortBy_sorted opLess hasymB opLess_trans l2))
    (strictify _ hk1 (sortBy_sorted opLess hasymB opLess_trans l1))

theorem opLess_asymm_false : ∀ a b : InternalOperation, opLess a b = true → opLess b a = false := by
  intro a b h
  cases hba : opLess b a with
  | false => rfl
  | true => exact absurd hba (fun hh => opLess_asymm a b h hh)

/-- Replacing a registry's operation list by a permutation with
pairwise-distinct (path, method-weight) keys and distinct emitted component
type names leaves the whole rendered document unchanged. -/
theorem buildYAML_ops_perm (sa : Sashay) (X1 X2 : List InternalOperation)
    (hX : List.Perm X2 X1)
    (hkeys : (X1.map (fun o => (o.path, methodWeight o.method))).Nodup)
    (out1 : List Field)
    (hout1 : sortedFieldsForSchema { sa with operations := X1 }
      (Sashay.fuelFor { sa with operations := X1 }) = .ok out1)
    (hnames : (out1.map (fun f => f.type.name)).Nodup) :
    BuildYAML { sa with operations := X2 } = BuildYAML { sa with operations := X1 } := by
  have hfuel : Sashay.fuelFor { sa with operations := X2 } =
      Sashay.fuelFor { sa with operations := X1 } := by
    simp only [Sashay.fuelFor, operations_upd, dataTypesForTypes_upd, dataTypesForKinds_upd]
    rw [(hX.map InternalOperation.osize).sum_eq]
  have h0 := hout1
  simp only [sortedFieldsForSchema, allResponseFields, operations_upd] at h0
  cases hvo1 : visitOperations { sa with operations := X1 }
      (Sashay.fuelFor { sa with operations := X1 }) X1 with
  | error e => rw [hvo1] at h0; simp [Bind.bind, Except.bind] at h0
  | ok allF1 =>
  rw [hvo1] at h0
  simp only [Bind.bind, Except.bind, Except.ok.injEq] at h0
  subst h0
  have hvo1s : visitOperations sa (Sashay.fuelFor { sa with operations := X1 }) X1 =
      .ok allF1 := by
    rw [← visitOperations_congr sa { sa with operations := X1 } rfl rfl _ X1 X1 rfl]
    exact hvo1
  obtain ⟨allF2, hvo2⟩ := visitOperations_ok_of_forall X2
    (fun op hop => visitOperations_ok_forall X1 allF1 hvo1s op (hX.mem_iff.mp hop))
  have hpF : List.Perm allF2 allF1 := visitOperations_perm hX hvo2 hvo1s
  have hvo2u : visitOperations { sa with operations := X2 }
      (Sashay.fuelFor { sa with operations := X1 }) X2 = .ok allF2 := by
    rw [visitOperations_congr sa { sa with operations := X2 } rfl rfl _ X2 X2 rfl]
    exact hvo2
  have hout2 : sortedFieldsForSchema { sa with operations := X2 }
      (Sashay.fuelFor { sa with operations := X1 }) =
      .ok (sortBy fieldsLess
        (removeAnonymousTypes
          (distinctFields (flattenSliceTypes (compactFields allF2)) []))) := by
    simp only [sortedFieldsForSchema, allResponseFields, operations_upd, hvo2u,
      Bind.bind, Except.bind]
  have hMeq := componentTypes_eq allF1 allF2 hpF hnames
  have hlen :
      (sortBy fieldsLess
        (removeAnonymousTypes
          (distinctFields (flattenSliceTypes (compactFields allF2)) []))).length =
      (sortBy fieldsLess
        (removeAnonymousTypes
          (distinctFields (flattenSliceTypes (compactFields allF1)) []))).length := by
    rw [← List.length_map _ (fun f : Field => f.type), hMeq, List.length_map]
  have hws : writeSchemas { sa with operations := X2 }
      (Sashay.fuelFor { sa with operations := X1 })
      (sortBy fieldsLess
        (removeAnonymousTypes
          (distinctFields (flattenSliceTypes (compactFields allF2)) []))) =
      writeSchemas { sa with operations := X1 }
      (Sashay.fuelFor { sa with operations := X1 })
      (sortBy fieldsLess
        (removeAnonymousTypes
          (distinctFields (flattenSliceTypes (compactFields allF1)) []))) := by
    simp only [writeSchemas, writeSchemasList_upd]
    rw [writeSchemasList_types_congr sa _ _ _ hMeq]
  have hcomp : writeComponents { sa with operations := X2 }
      (Sashay.fuelFor { sa with operations := X1 }) =
      writeComponents { sa with operations := X1 }
      (Sashay.fuelFor { sa with operations := X1 }) := by
    simp only [writeComponents, hout1, hout2, Bind.bind, Except.bind]
    rw [hlen, hws]
    simp only [writeSecuritySchemas_upd, writeSecurityScopes_upd, securities_upd]
  have hpaths : writePaths { sa with operations := X2 }
      (Sashay.fuelFor { sa with operations := X1 }) =
      writePaths { sa with operations := X1 }
      (Sashay.fuelFor { sa with operations := X1 }) := by
    simp only [writePaths, sortedOperations_upd, writePathsLoop_upd,
      sortedOps_eq X1 X2 hX hkeys]
  simp only [BuildYAML, WriteYAML, hfuel, hpaths, hcomp, writeInfo_upd, writeTagsDoc_upd,
    writeServersDoc_upd]

/-- C1 (amended): registering the same finite set of operations in any
order yields byte-identical output PROVIDED no two registered operations
share a (translated path, method weight) sort key and the emitted component
type names are pairwise distinct; the emitted operations are a permutation
of the registered ones, ordered primarily by translated path (byte-wise)
and secondarily by the method weighting get < post < put < patch < delete,
recomputed at emit time.  (Ties in the sort key make `sort.Slice`'s
unspecified order observable, refuting the unconditional claim; see the
counterexample.) -/
theorem c1_amended_order_independence
    (t d v : String) (ops1 ops2 : List Operation) (sa1 sa2 : Sashay)
    (out1 : List Field) (y : String)
    (hadd1 : (Sashay.new t d v).addAll ops1 = .ok sa1)
    (hadd2 : (Sashay.new t d v).addAll ops2 = .ok sa2)
    (hperm : List.Perm ops1 ops2)
    (hkeys : (sa1.operations.map (fun o => (o.path, methodWeight o.method))).Nodup)
    (hout1 : sortedFieldsForSchema sa1 sa1.fuelFor = .ok out1)
    (hnames : (out1.map (fun f => f.type.name)).Nodup)
    (hy : BuildYAML sa1 = .ok y) :
    BuildYAML sa2 = .ok y ∧
    List.Perm (sortedOperations sa1) sa1.operations ∧
    (sortedOperations sa1).Pairwise
      (fun a b => (a.path = b.path ∧ methodWeight a.method ≤ methodWeight b.method) ∨
        strLt a.path b.path = true) := by
  obtain ⟨iops1, hm1, hsa1⟩ := addAll_eq _ ops1 sa1 hadd1
  obtain ⟨iops2, hm2, hsa2⟩ := addAll_eq _ ops2 sa2 hadd2
  have hpermI : List.Perm iops2 iops1 :=
    exceptMapM_perm Operation.toInternalOperation hperm.symm hm2 hm1
  subst hsa1
  subst hsa2
  refine ⟨?_, ?_, ?_⟩
  · rw [buildYAML_ops_perm (Sashay.new t d v) _ _ (hpermI.append_left _) hkeys out1
      hout1 hnames]
    exact hy
  · exact sortBy_perm opLess _
  · refine (sortBy_sorted opLess opLess_asymm_false opLess_trans _).imp ?_
    intro a b h
    simp only [opLess] at h
    by_cases hp : b.path = a.path
    · rw [if_pos hp] at h
      simp only [decide_eq_false_iff_not] at h
      exact Or.inl ⟨hp.symm, by omega⟩
    · rw [if_neg hp] at h
      refine Or.inr ?_
      cases strLt_connex a.path b.path (fun hh => hp hh.symm) with
      | inl hl => exact hl
      | inr hr => rw [h] at hr; exact absurd hr (by simp)

/-- Counterexample for C1 as claimed: two operations with an identical
(path, method-weight) sort key — same path and method, different summaries
— registered in the two possible orders both build successfully but yield
different documents. -/
theorem c1_counterexample :
    List.Perm [Fix.tieOpA, Fix.tieOpB] [Fix.tieOpB, Fix.tieOpA] ∧
    (Fix.tieReg1.bind BuildYAML).toOption.isSome = true ∧
    (Fix.tieReg2.bind BuildYAML).toOption.isSome = true ∧
    Fix.tieReg1.bind BuildYAML ≠ Fix.tieReg2.bind BuildYAML :=
  ⟨List.Perm.swap Fix.tieOpB Fix.tieOpA [], by decide, by decide, by decide⟩

/-- Witness for the amended C1 at two distinct-key operations registered in
both orders. -/
theorem c1_amended_witness :
    BuildYAML Fix.okSa2 = .ok Fix.okY ∧
    List.Perm (sortedOperations Fix.okSa1) Fix.okSa1.operations ∧
    (sortedOperations Fix.okSa1).Pairwise
      (fun a b => (a.path = b.path ∧ methodWeight a.method ≤ methodWeight b.method) ∨
        strLt a.path b.path = true) :=
  c1_amended_order_independence "t" "d" "v" [Fix.okOpA, Fix.okOpB] [Fix.okOpB, Fix.okOpA]
    Fix.okSa1 Fix.okSa2 Fix.okOut1 Fix.okY
    (by rfl) (by rfl) (List.Perm.swap Fix.okOpB Fix.okOpA [])
    (by decide) (by rfl) (by decide) (by rfl)

end SashayModel
